import Mathlib

/-!
Verification development for the gather.io event/booking subsystem.

The definitions below are a shallow embedding of the TypeScript source:

* character-level string processing mirrors the JavaScript regular
  expression replacements used by the two generateSlug implementations
  (src/lib/utils.ts and src/database/event.model.ts);
* the document store (MongoDB via mongoose) is modelled as lists of
  event and booking documents with an id counter; unique indexes are
  modelled as a pre-insert scan that fails with the mongo duplicate-key
  code 11000;
* mongoose save pipelines (setters, validators, pre-save hooks, insert)
  are modelled as explicit ordered steps;
* JavaScript Date arithmetic is modelled over Int milliseconds with an
  explicit fixed UTC offset for the server timezone (minutes east of
  UTC); Date parsing of a YYYY-MM-DD string yields UTC midnight of the
  civil date, and setHours(0,0,0,0) yields server-local midnight.

Theorems named after claim ids settle the corresponding claims.
-/

namespace Gather

/-! ## Character classes (JavaScript regular-expression classes) -/

/-- Lower-case ASCII letter, the a-z part of slug character classes. -/
def lowerAlpha (c : Char) : Bool := 'a' ≤ c && c ≤ 'z'

/-- Upper-case ASCII letter. -/
def upperAlpha (c : Char) : Bool := 'A' ≤ c && c ≤ 'Z'

/-- ASCII digit 0-9. -/
def digitChar (c : Char) : Bool := '0' ≤ c && c ≤ '9'

/-- ASCII alphanumeric, used by the email domain-label class. -/
def alnumChar (c : Char) : Bool := lowerAlpha c || upperAlpha c || digitChar c

/-- The JavaScript whitespace class backslash-s restricted to its ASCII
members (space, tab, line feed, vertical tab, form feed, carriage
return).  Only these can occur in the inputs the claims quantify over;
non-ASCII whitespace would behave the same way in every step that uses
this predicate (kept by the strip step, merged by the collapse step). -/
def jsWs (c : Char) : Bool :=
  c = ' ' || c = '\t' || c = '\n' || c = '\x0b' || c = '\x0c' || c = '\r'

/-- The JavaScript word class backslash-w: ASCII letters, digits and
underscore. -/
def wordChar (c : Char) : Bool := alnumChar c || c = '_'

/-- Characters kept by the event-model slug strip step, the class
[a-z0-9 whitespace hyphen]. -/
def slugKeep (c : Char) : Bool := lowerAlpha c || digitChar c || jsWs c || c = '-'

/-- Characters allowed in a finished slug: [a-z0-9-]. -/
def slugChar (c : Char) : Bool := lowerAlpha c || digitChar c || c = '-'

/-! ## Generic string-rewriting steps shared by both slug generators -/

/-- One pass of the replacement of X+ runs by "-": every maximal run of characters
satisfying `p` becomes a single hyphen.  The boolean argument records
whether the previous character belonged to a run. -/
def collapseRuns (p : Char → Bool) : List Char → Bool → List Char
  | [], _ => []
  | c :: cs, inRun =>
    if p c then
      if inRun then collapseRuns p cs true
      else '-' :: collapseRuns p cs true
    else c :: collapseRuns p cs false

/-- JavaScript String.prototype.trim on a character list. -/
def jsTrim (l : List Char) : List Char :=
  ((l.dropWhile jsWs).reverse.dropWhile jsWs).reverse

/-- Replacement of one anchored leading hyphen by the empty string. -/
def dropOneLead (l : List Char) : List Char :=
  match l with
  | [] => []
  | c :: r => if c = '-' then r else c :: r

/-- Replacement of the anchored alternation (start hyphen, or hyphen end)
by the empty string: it drops one leading and one trailing hyphen, as each
anchor matches at most once. -/
def dropOneEachEnd (l : List Char) : List Char :=
  (dropOneLead (dropOneLead l).reverse).reverse

/-- Replacement of anchored hyphen runs at either end by the empty string:
drops every leading and trailing hyphen. -/
def dropHyphenEnds (l : List Char) : List Char :=
  ((l.dropWhile (fun c => c = '-')).reverse.dropWhile (fun c => c = '-')).reverse

namespace Utils

/-- generateSlug from src/lib/utils.ts: lowercase, trim, remove the
characters outside [word whitespace hyphen], replace runs of
[whitespace underscore hyphen] with single hyphens, strip leading and
trailing hyphen runs. -/
def generateSlug (text : String) : String :=
  String.mk (dropHyphenEnds
    (collapseRuns (fun c => jsWs c || c = '_' || c = '-')
      ((jsTrim (text.toList.map Char.toLower)).filter
        (fun c => wordChar c || jsWs c || c = '-'))
      false))

end Utils

namespace EventModel

/-- generateSlug from src/database/event.model.ts: lowercase, trim,
remove the characters outside [a-z0-9 whitespace hyphen], replace
whitespace runs with single hyphens, collapse hyphen runs, remove one
leading and one trailing hyphen. -/
def generateSlug (title : String) : String :=
  String.mk (dropOneEachEnd
    (collapseRuns (fun c => c = '-')
      (collapseRuns jsWs ((jsTrim (title.toList.map Char.toLower)).filter slugKeep) false)
      false))

end EventModel

/-- Modelled from the spec sentence of claim C5 (the claimed pipeline,
used only to compare against the two source implementations): lowercase,
trim, strip the characters outside [a-z0-9 whitespace hyphen], collapse
runs of whitespace, underscore or hyphen into single hyphens, strip
leading and trailing hyphens. -/
def specSlugC5 (text : String) : String :=
  String.mk (dropHyphenEnds
    (collapseRuns (fun c => jsWs c || c = '_' || c = '-')
      ((jsTrim (text.toList.map Char.toLower)).filter slugKeep)
      false))

/-! ## Well-formedness of slugs -/

/-- No two consecutive hyphens. -/
def noDoubleHyphen : List Char → Bool
  | [] => true
  | [_] => true
  | a :: b :: r => !(a = '-' && b = '-') && noDoubleHyphen (b :: r)

/-- A well-formed slug: only [a-z0-9-], no hyphen at either end, no two
consecutive hyphens. -/
def wellFormedSlug (s : String) : Bool :=
  s.toList.all slugChar &&
  (s.toList.head? ≠ some '-' : Bool) &&
  (s.toList.getLast? ≠ some '-' : Bool) &&
  noDoubleHyphen s.toList

/-! ## Facts about ASCII lower-casing -/

lemma char_le_iff {a b : Char} : a ≤ b ↔ a.toNat ≤ b.toNat := by
  rw [Char.le_def, UInt32.le_def]
  rfl

lemma toNat_ofNatAux {n : Nat} (h : n.isValidChar) : (Char.ofNatAux n h).toNat = n := by
  have h32 : n < 2 ^ 32 := by
    rcases h with h | h
    · omega
    · omega
  simp [Char.ofNatAux, Char.toNat, UInt32.toNat, UInt32.ofNatCore, BitVec.toNat_ofNat,
    Nat.mod_eq_of_lt h32]

/-- Lower-casing never produces an upper-case ASCII letter. -/
lemma upperAlpha_toLower (c : Char) : upperAlpha (Char.toLower c) = false := by
  unfold Char.toLower
  by_cases h : c.toNat ≥ 65 ∧ c.toNat ≤ 90
  · rw [if_pos h]
    have hv : (c.toNat + 32).isValidChar := Or.inl (by omega)
    unfold Char.ofNat
    rw [dif_pos hv]
    have ht : (Char.ofNatAux (c.toNat + 32) hv).toNat = c.toNat + 32 := toNat_ofNatAux hv
    have hz : ¬(Char.ofNatAux (c.toNat + 32) hv ≤ 'Z') := by
      rw [char_le_iff, ht]
      have : ('Z').toNat = 90 := rfl
      omega
    simp [upperAlpha, hz]
  · rw [if_neg h]
    by_cases h1 : ('A') ≤ c
    · have h2 : ¬(c ≤ 'Z') := by
        rw [char_le_iff] at h1 ⊢
        have ha : ('A').toNat = 65 := rfl
        have hb : ('Z').toNat = 90 := rfl
        omega
      simp [upperAlpha, h2]
    · simp [upperAlpha, h1]

/-! ## Structural lemmas about the rewriting steps -/

/-- Adjacent-hyphen freedom as a relation on neighbours. -/
def NDH (a b : Char) : Prop := ¬(a = '-' ∧ b = '-')

lemma noDoubleHyphen_iff : ∀ l, noDoubleHyphen l = true ↔ List.Chain' NDH l
  | [] => by simp [noDoubleHyphen]
  | [a] => by simp [noDoubleHyphen]
  | a :: b :: r => by
    rw [noDoubleHyphen, List.chain'_cons, Bool.and_eq_true, noDoubleHyphen_iff (b :: r)]
    simp only [NDH, Bool.not_eq_eq_eq_not, Bool.not_true, Bool.and_eq_false_iff]
    constructor
    · rintro ⟨h1, h2⟩
      refine ⟨?_, h2⟩
      intro ⟨ha, hb⟩
      rcases h1 with h | h
      · rw [ha] at h; simp at h
      · rw [hb] at h; simp at h
    · rintro ⟨h1, h2⟩
      refine ⟨?_, h2⟩
      by_cases ha : a = '-'
      · by_cases hb : b = '-'
        · exact absurd ⟨ha, hb⟩ h1
        · exact Or.inr (by simpa using hb)
      · exact Or.inl (by simpa using ha)

lemma mem_collapseRuns {p : Char → Bool} :
    ∀ l b c, c ∈ collapseRuns p l b → c = '-' ∨ (c ∈ l ∧ p c = false) := by
  intro l
  induction l with
  | nil => intro b c h; simp [collapseRuns] at h
  | cons a t ih =>
    intro b c h
    have step : ∀ d, c ∈ collapseRuns p t d → c = '-' ∨ (c ∈ a :: t ∧ p c = false) := by
      intro d hd
      rcases ih d c hd with h1 | ⟨hm, hf⟩
      · exact Or.inl h1
      · exact Or.inr ⟨List.mem_cons_of_mem a hm, hf⟩
    by_cases hp : p a = true
    · cases b
      · simp [collapseRuns, hp] at h
        rcases h with h | h
        · exact Or.inl h
        · exact step true h
      · simp [collapseRuns, hp] at h
        exact step true h
    · have hh : c = a ∨ c ∈ collapseRuns p t false := by
        cases b <;> simpa [collapseRuns, hp] using h
      rcases hh with hh | hh
      · subst hh
        exact Or.inr ⟨List.mem_cons_self c t, by simpa using hp⟩
      · exact step false hh

lemma head?_collapseRuns_true {p : Char → Bool} :
    ∀ l c, (collapseRuns p l true).head? = some c → p c = false := by
  intro l
  induction l with
  | nil => intro c h; simp [collapseRuns] at h
  | cons a t ih =>
    intro c h
    by_cases hp : p a = true
    · simp [collapseRuns, hp] at h
      exact ih c h
    · simp [collapseRuns, hp] at h
      subst h
      simpa using hp

lemma chain'_collapseRuns {p : Char → Bool} (hp : p '-' = true) :
    ∀ l b, List.Chain' NDH (collapseRuns p l b) := by
  intro l
  induction l with
  | nil => intro b; simp [collapseRuns]
  | cons a t ih =>
    intro b
    by_cases hpa : p a = true
    · cases b
      · show List.Chain' NDH (collapseRuns p (a :: t) false)
        have he : collapseRuns p (a :: t) false = '-' :: collapseRuns p t true := by
          simp [collapseRuns, hpa]
        rw [he, List.chain'_cons']
        refine ⟨?_, ih true⟩
        intro y hy hc
        have hpy := head?_collapseRuns_true t y hy
        rw [hc.2, hp] at hpy
        exact Bool.true_eq_false.mp hpy
      · show List.Chain' NDH (collapseRuns p (a :: t) true)
        have he : collapseRuns p (a :: t) true = collapseRuns p t true := by
          simp [collapseRuns, hpa]
        rw [he]
        exact ih true
    · have he : ∀ d, collapseRuns p (a :: t) d = a :: collapseRuns p t false := by
        intro d
        simp [collapseRuns, hpa]
      rw [he b, List.chain'_cons']
      refine ⟨?_, ih false⟩
      intro y hy hc
      rw [hc.1] at hpa
      exact hpa hp

lemma head?_dropWhile_not {q : Char → Bool} :
    ∀ l : List Char, ∀ c, (l.dropWhile q).head? = some c → q c = false := by
  intro l
  induction l with
  | nil => intro c h; simp at h
  | cons a t ih =>
    intro c h
    by_cases hq : q a = true
    · rw [List.dropWhile_cons, if_pos hq] at h
      exact ih c h
    · rw [List.dropWhile_cons, if_neg hq, List.head?_cons] at h
      cases h
      simpa using hq

lemma chain'_NDH_reverse {l : List Char} (h : List.Chain' NDH l) :
    List.Chain' NDH l.reverse := by
  rw [List.chain'_reverse]
  exact h.imp (fun a b hab hba => hab ⟨hba.2, hba.1⟩)

lemma subset_dropOneLead : ∀ l : List Char, dropOneLead l ⊆ l := by
  intro l
  match l with
  | [] => exact fun x hx => hx
  | c :: r =>
    rw [dropOneLead]
    by_cases hc : c = '-'
    · rw [if_pos hc]
      exact List.subset_cons_self c r
    · rw [if_neg hc]
      exact fun x hx => hx

lemma chain'_dropOneLead {l : List Char} (h : List.Chain' NDH l) :
    List.Chain' NDH (dropOneLead l) := by
  match l with
  | [] => exact h
  | c :: r =>
    rw [dropOneLead]
    by_cases hc : c = '-'
    · rw [if_pos hc]
      exact (List.chain'_cons'.mp h).2
    · rw [if_neg hc]
      exact h

lemma head?_dropOneLead {l : List Char} (h : List.Chain' NDH l) :
    (dropOneLead l).head? ≠ some '-' := by
  match l with
  | [] => simp [dropOneLead]
  | c :: r =>
    rw [dropOneLead]
    by_cases hc : c = '-'
    · rw [if_pos hc]
      match r with
      | [] => simp
      | d :: r' =>
        have hnd : NDH c d := (List.chain'_cons'.mp h).1 d rfl
        intro hd
        rw [List.head?_cons, Option.some.injEq] at hd
        exact hnd ⟨hc, hd⟩
    · rw [if_neg hc]
      intro hd
      rw [List.head?_cons, Option.some.injEq] at hd
      exact hc hd

lemma getLast?_dropOneLead (l : List Char) :
    (dropOneLead l).getLast? = none ∨ (dropOneLead l).getLast? = l.getLast? := by
  match l with
  | [] => exact Or.inl rfl
  | c :: r =>
    rw [dropOneLead]
    by_cases hc : c = '-'
    · rw [if_pos hc]
      match r with
      | [] => exact Or.inl rfl
      | d :: r' =>
        right
        rw [List.getLast?_cons_cons]
    · rw [if_neg hc]
      exact Or.inr rfl

lemma getLast?_of_suffix {l m : List Char} (h : l <:+ m) :
    l.getLast? = none ∨ l.getLast? = m.getLast? := by
  match l with
  | [] => exact Or.inl rfl
  | a :: l' =>
    right
    obtain ⟨t, rfl⟩ := h
    rw [List.getLast?_append]
    have : (a :: l').getLast? ≠ none := by
      simp [List.getLast?_eq_none_iff]
    cases he : (a :: l').getLast? with
    | none => exact absurd he this
    | some y => rfl

/-- Facts about the strip-every-end-hyphen step used by the utils slug. -/
lemma dropHyphenEnds_subset (l : List Char) : dropHyphenEnds l ⊆ l := by
  unfold dropHyphenEnds
  intro x hx
  rw [List.mem_reverse] at hx
  have hx2 := (List.dropWhile_suffix (l := (l.dropWhile (fun c => c = '-')).reverse)
    (fun c => c = '-')).subset hx
  rw [List.mem_reverse] at hx2
  exact (List.dropWhile_suffix (fun c => c = '-')).subset hx2

lemma chain'_dropHyphenEnds {l : List Char} (h : List.Chain' NDH l) :
    List.Chain' NDH (dropHyphenEnds l) := by
  unfold dropHyphenEnds
  apply chain'_NDH_reverse
  apply List.Chain'.suffix _ (List.dropWhile_suffix _)
  apply chain'_NDH_reverse
  exact List.Chain'.suffix h (List.dropWhile_suffix _)

lemma head?_dropHyphenEnds (l : List Char) : (dropHyphenEnds l).head? ≠ some '-' := by
  unfold dropHyphenEnds
  rw [List.head?_reverse]
  rcases getLast?_of_suffix (List.dropWhile_suffix (l := (l.dropWhile (fun c => c = '-')).reverse)
      (fun c => c = '-')) with h | h
  · rw [h]
    simp
  · rw [h, List.getLast?_reverse]
    intro hc
    have := head?_dropWhile_not (q := fun c => c = '-') l '-' hc
    simp at this

lemma getLast?_dropHyphenEnds (l : List Char) : (dropHyphenEnds l).getLast? ≠ some '-' := by
  unfold dropHyphenEnds
  rw [List.getLast?_reverse]
  intro hc
  have := head?_dropWhile_not (q := fun c => c = '-') _ '-' hc
  simp at this

/-- Facts about the strip-one-end-hyphen step used by the event-model slug. -/
lemma dropOneEachEnd_subset (l : List Char) : dropOneEachEnd l ⊆ l := by
  unfold dropOneEachEnd
  intro x hx
  rw [List.mem_reverse] at hx
  have hx2 := subset_dropOneLead _ hx
  rw [List.mem_reverse] at hx2
  exact subset_dropOneLead _ hx2

lemma chain'_dropOneEachEnd {l : List Char} (h : List.Chain' NDH l) :
    List.Chain' NDH (dropOneEachEnd l) := by
  unfold dropOneEachEnd
  exact chain'_NDH_reverse (chain'_dropOneLead (chain'_NDH_reverse (chain'_dropOneLead h)))

lemma head?_dropOneEachEnd {l : List Char} (h : List.Chain' NDH l) :
    (dropOneEachEnd l).head? ≠ some '-' := by
  unfold dropOneEachEnd
  rw [List.head?_reverse]
  rcases getLast?_dropOneLead (dropOneLead l).reverse with hg | hg
  · rw [hg]
    simp
  · rw [hg, List.getLast?_reverse]
    exact head?_dropOneLead h

lemma getLast?_dropOneEachEnd {l : List Char} (h : List.Chain' NDH l) :
    (dropOneEachEnd l).getLast? ≠ some '-' := by
  unfold dropOneEachEnd
  rw [List.getLast?_reverse]
  exact head?_dropOneLead (chain'_NDH_reverse (chain'_dropOneLead h))

lemma jsTrim_subset (l : List Char) : jsTrim l ⊆ l := by
  unfold jsTrim
  intro x hx
  rw [List.mem_reverse] at hx
  have hx2 := (List.dropWhile_suffix (l := (l.dropWhile jsWs).reverse) jsWs).subset hx
  rw [List.mem_reverse] at hx2
  exact (List.dropWhile_suffix jsWs).subset hx2

lemma not_upper_of_mem_map_toLower {l : List Char} {c : Char}
    (h : c ∈ l.map Char.toLower) : upperAlpha c = false := by
  rcases List.mem_map.mp h with ⟨d, _, rfl⟩
  exact upperAlpha_toLower d

lemma wellFormedSlug_of (l : List Char)
    (hall : ∀ c ∈ l, slugChar c = true)
    (hh : l.head? ≠ some '-')
    (hl : l.getLast? ≠ some '-')
    (hch : List.Chain' NDH l) :
    wellFormedSlug (String.mk l) = true := by
  have hdata : (String.mk l).toList = l := rfl
  unfold wellFormedSlug
  rw [hdata]
  simp only [Bool.and_eq_true, List.all_eq_true, decide_eq_true_eq]
  exact ⟨⟨⟨fun c hc => hall c hc, hh⟩, hl⟩, (noDoubleHyphen_iff l).mpr hch⟩

lemma slugChar_of_utilsKeep {c : Char}
    (hk : (wordChar c || jsWs c || decide (c = '-')) = true)
    (hp : (jsWs c || decide (c = '_') || decide (c = '-')) = false)
    (hu : upperAlpha c = false) : slugChar c = true := by
  simp only [wordChar, alnumChar, Bool.or_eq_true, decide_eq_true_eq] at hk
  simp only [Bool.or_eq_false_iff, decide_eq_false_iff_not] at hp
  simp only [slugChar, Bool.or_eq_true, decide_eq_true_eq]
  rcases hk with ((((h | h) | h) | h) | h) | h
  · exact Or.inl (Or.inl h)
  · rw [h] at hu
    exact absurd hu (by simp)
  · exact Or.inl (Or.inr h)
  · exact absurd h hp.1.2
  · rw [h] at hp
    exact absurd hp.1.1 (by simp)
  · exact Or.inr h

lemma slugChar_of_slugKeep {c : Char}
    (hk : slugKeep c = true) (hw : jsWs c = false) : slugChar c = true := by
  simp only [slugKeep, Bool.or_eq_true, decide_eq_true_eq] at hk
  simp only [slugChar, Bool.or_eq_true, decide_eq_true_eq]
  rcases hk with ((h | h) | h) | h
  · exact Or.inl (Or.inl h)
  · exact Or.inl (Or.inr h)
  · rw [h] at hw
    exact absurd hw (by simp)
  · exact Or.inr h

/-- Every output of the utils generateSlug is a well-formed slug. -/
theorem utilsSlug_wellFormed (s : String) : wellFormedSlug (Utils.generateSlug s) = true := by
  unfold Utils.generateSlug
  have hpz : (fun c => jsWs c || decide (c = '_') || decide (c = '-')) '-' = true := by decide
  have hch := chain'_collapseRuns (p := fun c => jsWs c || decide (c = '_') || decide (c = '-'))
    hpz ((jsTrim (s.toList.map Char.toLower)).filter
      (fun c => wordChar c || jsWs c || decide (c = '-'))) false
  apply wellFormedSlug_of
  · intro c hc
    have hc2 := dropHyphenEnds_subset _ hc
    rcases mem_collapseRuns _ _ _ hc2 with h | ⟨hm, hf⟩
    · rw [h]
      decide
    · have hk := List.of_mem_filter hm
      have hmem := List.mem_of_mem_filter hm
      have hu := not_upper_of_mem_map_toLower (jsTrim_subset _ hmem)
      exact slugChar_of_utilsKeep hk hf hu
  · exact head?_dropHyphenEnds _
  · exact getLast?_dropHyphenEnds _
  · exact chain'_dropHyphenEnds hch

/-- Every output of the event-model generateSlug is a well-formed slug. -/
theorem eventModelSlug_wellFormed (s : String) :
    wellFormedSlug (EventModel.generateSlug s) = true := by
  unfold EventModel.generateSlug
  have hpz : (fun c => decide (c = '-')) '-' = true := by decide
  have hch := chain'_collapseRuns (p := fun c => decide (c = '-')) hpz
    (collapseRuns jsWs ((jsTrim (s.toList.map Char.toLower)).filter slugKeep) false) false
  apply wellFormedSlug_of
  · intro c hc
    have hc2 := dropOneEachEnd_subset _ hc
    rcases mem_collapseRuns _ _ _ hc2 with h | ⟨hm1, _⟩
    · rw [h]
      decide
    · rcases mem_collapseRuns _ _ _ hm1 with h | ⟨hm2, hw⟩
      · rw [h]
        decide
      · exact slugChar_of_slugKeep (List.of_mem_filter hm2) hw
  · exact head?_dropOneEachEnd hch
  · exact getLast?_dropOneEachEnd hch
  · exact chain'_dropOneEachEnd hch

/-! ## The event-model slug pipeline equals the spec pipeline of claim C5 -/

lemma collapseRuns_congr {p q : Char → Bool} :
    ∀ l b, (∀ c ∈ l, p c = q c) → collapseRuns p l b = collapseRuns q l b := by
  intro l
  induction l with
  | nil => intro b _; rfl
  | cons a t ih =>
    intro b hpq
    have ha := hpq a (List.mem_cons_self a t)
    have ht : ∀ c ∈ t, p c = q c := fun c hc => hpq c (List.mem_cons_of_mem a hc)
    by_cases hp : p a = true
    · have hq : q a = true := by rw [← ha]; exact hp
      cases b <;> simp [collapseRuns, hp, hq, ih true ht]
    · have hq : q a = false := by rw [← ha]; simpa using hp
      cases b <;> simp [collapseRuns, hp, hq, ih false ht]

/-- Collapsing whitespace runs and then hyphen runs is the same as
collapsing whitespace-or-hyphen runs in one pass. -/
lemma collapse_ws_then_hyphen :
    ∀ l : List Char,
      (∀ b, collapseRuns (fun c => decide (c = '-')) (collapseRuns jsWs l b) b
          = collapseRuns (fun c => jsWs c || decide (c = '-')) l b)
      ∧ collapseRuns (fun c => decide (c = '-')) (collapseRuns jsWs l false) true
          = collapseRuns (fun c => jsWs c || decide (c = '-')) l true := by
  intro l
  induction l with
  | nil => exact ⟨fun b => rfl, rfl⟩
  | cons a t ih =>
    obtain ⟨ih1, ih2⟩ := ih
    by_cases hw : jsWs a = true
    · constructor
      · intro b
        cases b
        · simp [collapseRuns, hw, ih1 true]
        · simp [collapseRuns, hw, ih1 true]
      · simp [collapseRuns, hw, ih1 true]
    · by_cases hh : a = '-'
      · subst hh
        constructor
        · intro b
          cases b
          · simp [collapseRuns, hw, ih2]
          · simp [collapseRuns, hw, ih2]
        · simp [collapseRuns, hw, ih2]
      · constructor
        · intro b
          cases b
          · simp [collapseRuns, hw, hh, ih1 false]
          · simp [collapseRuns, hw, hh, ih1 false]
        · simp [collapseRuns, hw, hh, ih1 false]

/-- On a list with no adjacent hyphens, stripping hyphen runs from the
front is the same as stripping a single leading hyphen. -/
lemma dropWhile_hyphen_eq_dropOneLead :
    ∀ l : List Char, List.Chain' NDH l →
      l.dropWhile (fun c => c = '-') = dropOneLead l := by
  intro l hch
  match l with
  | [] => rfl
  | c :: t =>
    by_cases hc : c = '-'
    · rw [List.dropWhile_cons, if_pos (by simpa using hc), dropOneLead, if_pos hc]
      match t with
      | [] => rfl
      | d :: t' =>
        have hnd : NDH c d := (List.chain'_cons'.mp hch).1 d rfl
        have hd : ¬(d = '-') := fun h => hnd ⟨hc, h⟩
        rw [List.dropWhile_cons, if_neg (by simpa using hd)]
    · rw [List.dropWhile_cons, if_neg (by simpa using hc), dropOneLead, if_neg hc]

/-- On a list with no adjacent hyphens, the one-hyphen end strip of the
event model equals the hyphen-run end strip of the spec pipeline. -/
lemma dropOneEachEnd_eq_dropHyphenEnds {l : List Char} (h : List.Chain' NDH l) :
    dropOneEachEnd l = dropHyphenEnds l := by
  unfold dropOneEachEnd dropHyphenEnds
  rw [dropWhile_hyphen_eq_dropOneLead l h,
    dropWhile_hyphen_eq_dropOneLead (dropOneLead l).reverse
      (chain'_NDH_reverse (chain'_dropOneLead h))]

/-- The event-model generateSlug coincides with the pipeline the spec
describes for claim C5 on every input. -/
theorem eventModel_generateSlug_eq_specSlugC5 (s : String) :
    EventModel.generateSlug s = specSlugC5 s := by
  unfold EventModel.generateSlug specSlugC5
  have hcongr : ∀ c ∈ (jsTrim (s.toList.map Char.toLower)).filter slugKeep,
      (fun c => jsWs c || decide (c = '-')) c
        = (fun c => jsWs c || decide (c = '_') || decide (c = '-')) c := by
    intro c hc
    have hk := List.of_mem_filter hc
    have : ¬(c = '_') := by
      intro hund
      rw [hund] at hk
      exact absurd hk (by decide)
    simp [this]
  have h1 := (collapse_ws_then_hyphen
    ((jsTrim (s.toList.map Char.toLower)).filter slugKeep)).1 false
  rw [h1, collapseRuns_congr _ false hcongr]
  have hch := chain'_collapseRuns
    (p := fun c => jsWs c || decide (c = '_') || decide (c = '-')) (by decide)
    ((jsTrim (s.toList.map Char.toLower)).filter slugKeep) false
  rw [dropOneEachEnd_eq_dropHyphenEnds hch]

/-! ## Claim C5 -/

/-- C5 counterexample: the claim says generateSlug strips the characters
outside [a-z0-9 whitespace hyphen] before collapsing runs, but the
generateSlug of src/lib/utils.ts keeps underscores until the collapse
step and therefore turns them into hyphens: on the input containing an
underscore its output differs from the pipeline the claim describes. -/
theorem C5_counterexample :
    Utils.generateSlug "hello_world" = "hello-world" ∧
    specSlugC5 "hello_world" = "helloworld" ∧
    Utils.generateSlug "hello_world" ≠ specSlugC5 "hello_world" := by
  refine ⟨by decide, by decide, by decide⟩

/-- C5 amended: the event-model generateSlug (the one that assigns slugs
at event creation) implements exactly the pipeline the claim describes,
while the utils generateSlug keeps underscores until the collapse step
and maps them to hyphens; both return "nextjs-meetup" on
"Next.js   Meetup!!" and "" on blank input, and for every input string
both outputs contain only [a-z0-9-], have no leading or trailing hyphen
and no two consecutive hyphens. -/
theorem C5_generateSlug_normalization :
    (∀ s, EventModel.generateSlug s = specSlugC5 s) ∧
    Utils.generateSlug "hello_world" = "hello-world" ∧
    EventModel.generateSlug "hello_world" = "helloworld" ∧
    Utils.generateSlug "Next.js   Meetup!!" = "nextjs-meetup" ∧
    EventModel.generateSlug "Next.js   Meetup!!" = "nextjs-meetup" ∧
    Utils.generateSlug "  " = "" ∧
    EventModel.generateSlug "  " = "" ∧
    (∀ s, wellFormedSlug (Utils.generateSlug s) = true) ∧
    (∀ s, wellFormedSlug (EventModel.generateSlug s) = true) := by
  refine ⟨eventModel_generateSlug_eq_specSlugC5, by decide, by decide, by decide, by decide,
    by decide, by decide, utilsSlug_wellFormed, eventModelSlug_wellFormed⟩

/-! ## Document store model -/

/-- A stored Event document, with the fields the claims mention
(src/database/event.model.ts).  `capacity = none` models an absent
capacity (unlimited).  `createdAt` is a store-managed timestamp in
milliseconds. -/
structure EventDoc where
  id : Nat
  title : String
  slug : String
  description : String
  location : String
  organizer : String
  tags : List String
  date : String
  time : String
  mode : String
  capacity : Option Nat
  createdAt : Int
deriving DecidableEq

/-- A stored Booking document (src/unnamed/part_002). -/
structure BookingDoc where
  id : Nat
  eventId : Nat
  email : String
  fullName : String
  status : String
  createdAt : Int
deriving DecidableEq

/-- The document store: the two collections plus a fresh-id counter for
store-assigned ids. -/
structure DB where
  events : List EventDoc
  bookings : List BookingDoc
  nextId : Nat
deriving DecidableEq

/-- Event.findById. -/
def findEventById (st : DB) (i : Nat) : Option EventDoc :=
  st.events.find? (fun e => e.id == i)

/-- Booking.countDocuments with filter eventId and status confirmed. -/
def confirmedCount (st : DB) (evId : Nat) : Nat :=
  (st.bookings.filter (fun b => b.eventId == evId && b.status == "confirmed")).length

/-! ## API response messages (src/unnamed/part_000, API_MESSAGES) -/

namespace API_MESSAGES

def NOT_FOUND : String := "Resource not found"

def VALIDATION_ERROR : String := "Validation failed"

def SERVER_ERROR : String := "Internal server error"

def DUPLICATE_BOOKING : String := "Already registered for this events"

def EVENT_FULL : String := "Event is at full capacity"

def BOOKING_CREATED : String := "Booking confirmed successfully"

def BOOKING_CANCELLED : String := "Booking cancelled successfully"

end API_MESSAGES

/-! ## Email grammar (the validator regex of the Booking schema) -/

/-- Characters of the email local-part class: ASCII alphanumerics plus
the punctuation listed in the regex, given by code point. -/
def localChar (c : Char) : Bool :=
  alnumChar c ||
  ([33, 35, 36, 37, 38, 39, 42, 43, 45, 46, 47, 61, 63, 94, 95, 96, 123, 124, 125,
    126] : List Nat).contains c.toNat

/-- One domain label: an alphanumeric, optionally followed by up to 61
alphanumeric-or-hyphen characters and a final alphanumeric. -/
def labelOk (l : List Char) : Bool :=
  match l with
  | [] => false
  | [c] => alnumChar c
  | c :: rest =>
    alnumChar c && rest.length ≤ 62 &&
    (match rest.getLast? with
     | some d => alnumChar d
     | none => false) &&
    rest.dropLast.all (fun x => alnumChar x || x = '-')

/-- JavaScript String.prototype.split on a single separator character. -/
def splitOnChar (sep : Char) : List Char → List (List Char)
  | [] => [[]]
  | c :: r =>
    if c = sep then [] :: splitOnChar sep r
    else
      match splitOnChar sep r with
      | [] => [[c]]
      | h :: t => (c :: h) :: t

/-- The anchored email regex of the Booking schema: a nonempty local
part over `localChar`, one at sign, and a dot-separated sequence of
valid labels. -/
def emailRegexOk (s : String) : Bool :=
  match splitOnChar '@' s.toList with
  | [loc, dom] =>
    (!loc.isEmpty) && loc.all localChar && (splitOnChar '.' dom).all labelOk
  | _ => false

/-- The mongoose lowercase and trim setters applied to the email field.
ASCII lower-casing; full Unicode lower-casing differs only on characters
the email regex rejects either way. -/
def normEmail (s : String) : String := String.mk (jsTrim (s.toList.map Char.toLower))

/-- The mongoose trim setter. -/
def normTrim (s : String) : String := String.mk (jsTrim s.toList)

/-! ## The Booking save pipeline -/

/-- The document handed to Booking.create: fullName is optional because
the createBooking of src/lib/actions/booking.actions.ts does not pass
one. -/
structure BookingInput where
  eventId : Nat
  email : String
  fullName : Option String
  status : String
deriving DecidableEq

/-- Schema setters (trim and lowercase on email, trim on fullName). -/
def bookingApplySetters (b : BookingInput) : BookingInput :=
  { b with email := normEmail b.email, fullName := b.fullName.map normTrim }

/-- Schema validation of the Booking model, returning the messages of
every violated path in schema order.  String length counts characters;
the JavaScript length counts UTF-16 units, which agrees on the ASCII
strings the claims use. -/
def bookingValidate (b : BookingInput) : List String :=
  (if b.email = "" then [("Attendee email is required")]
   else if emailRegexOk b.email then [] else [("Please provide a valid email address")]) ++
  (match b.fullName with
   | none => [("Attendee full name is required")]
   | some n =>
     if n = "" then [("Attendee full name is required")]
     else if n.length ≤ 100 then [] else [("Full name cannot exceed 100 characters")]) ++
  (if b.status ∈ (["confirmed", "cancelled", "waitlisted"] : List String) then []
   else [("Status must be confirmed, cancelled, or waitlisted")])

/-- The failure modes of a mongoose save: schema validation, an error
passed to next() by a pre-save hook, and the duplicate-key error of a
unique index. -/
inductive SaveError where
  | validation (msgs : List String)
  | hookError (msg : String)
  | dupKey
deriving DecidableEq

/-- error.code: only the mongo duplicate-key error carries 11000. -/
def SaveError.code : SaveError → Option Nat
  | .dupKey => some 11000
  | _ => none

/-- error.message.  For a validation error the createBooking action
joins the per-field messages; for the duplicate-key error mongo produces
an E11000 message. -/
def SaveError.message : SaveError → String
  | .validation msgs => String.intercalate (", ") msgs
  | .hookError m => m
  | .dupKey => "E11000 duplicate key error"

/-- error.name comparison with ValidationError. -/
def SaveError.isValidation : SaveError → Bool
  | .validation _ => true
  | _ => false

/-- Booking.create modelled as the mongoose save pipeline in order:
setters, validation, the pre-save hook of src/unnamed/part_002 (event
existence check, then duplicate (eventId, email) check with no status
qualifier), then the unique compound index on (eventId, email), then the
insert with a store-assigned id. -/
def bookingSave (st : DB) (now : Int) (input : BookingInput) :
    Except SaveError (DB × BookingDoc) :=
  let b := bookingApplySetters input
  let errs := bookingValidate b
  if errs ≠ [] then .error (.validation errs)
  else
    match findEventById st b.eventId with
    | none => .error (.hookError ("Event with ID " ++ toString b.eventId ++ " does not exist"))
    | some _ =>
      match st.bookings.find? (fun ex => ex.eventId == b.eventId && ex.email == b.email) with
      | some _ => .error (.hookError ("A booking with this email already exists for the events"))
      | none =>
        if st.bookings.any (fun ex => ex.eventId == b.eventId && ex.email == b.email) then
          .error .dupKey
        else
          .ok ({ st with
                  bookings := st.bookings ++
                    [{ id := st.nextId, eventId := b.eventId, email := b.email,
                       fullName := b.fullName.getD "", status := b.status, createdAt := now }],
                  nextId := st.nextId + 1 },
               { id := st.nextId, eventId := b.eventId, email := b.email,
                 fullName := b.fullName.getD "", status := b.status, createdAt := now })

/-! ## Substring test (String.prototype.includes) -/

def isPrefixChars : List Char → List Char → Bool
  | [], _ => true
  | _ :: _, [] => false
  | a :: t, b :: u => a = b && isPrefixChars t u

def containsSub : List Char → List Char → Bool
  | [], needle => needle.isEmpty
  | h :: t, needle => isPrefixChars needle (h :: t) || containsSub t needle

/-- s.includes(sub). -/
def containsStr (s sub : String) : Bool := containsSub s.toList sub.toList

/-! ## Booking server actions -/

/-- The result shape of the booking server actions in
src/unnamed/part_001. -/
structure ActionResult where
  success : Bool
  message : String
  bookingId : Option Nat
deriving DecidableEq

namespace ServerActions

/-- createBooking from src/unnamed/part_001: event existence check,
capacity gate (only when event.capacity is truthy), then Booking.create;
the catch classifies the error by code 11000 or a message containing
"duplicate", then by name ValidationError, else the generic server
error. -/
def createBooking (st : DB) (now : Int) (eventId : Nat) (email fullName : String) :
    ActionResult × DB :=
  match findEventById st eventId with
  | none => ({ success := false, message := API_MESSAGES.NOT_FOUND, bookingId := none }, st)
  | some ev =>
    let capacityBlocked :=
      match ev.capacity with
      | some c => c ≠ 0 && confirmedCount st eventId ≥ c
      | none => false
    if capacityBlocked then
      ({ success := false, message := API_MESSAGES.EVENT_FULL, bookingId := none }, st)
    else
      match bookingSave st now
          { eventId := eventId, email := email, fullName := some fullName,
            status := "confirmed" } with
      | .ok (st2, doc) =>
        ({ success := true, message := API_MESSAGES.BOOKING_CREATED,
           bookingId := some doc.id }, st2)
      | .error e =>
        if e.code == some 11000 || containsStr e.message ("duplicate") then
          ({ success := false, message := API_MESSAGES.DUPLICATE_BOOKING, bookingId := none }, st)
        else if e.isValidation then
          ({ success := false, message := e.message, bookingId := none }, st)
        else
          ({ success := false, message := API_MESSAGES.SERVER_ERROR, bookingId := none }, st)

/-- cancelBooking from src/unnamed/part_001: findByIdAndUpdate sets
status cancelled (no save hooks run on update); afterwards the handler
reads the populated event slug, which throws into the catch when the
event is gone, after the update has been applied. -/
def cancelBooking (st : DB) (bookingId : Nat) : ActionResult × DB :=
  match st.bookings.find? (fun b => b.id == bookingId) with
  | none => ({ success := false, message := API_MESSAGES.NOT_FOUND, bookingId := none }, st)
  | some b =>
    let st2 := { st with
      bookings := st.bookings.map
        (fun x => if x.id == bookingId then { x with status := "cancelled" } else x) }
    match findEventById st b.eventId with
    | some _ =>
      ({ success := true, message := API_MESSAGES.BOOKING_CANCELLED, bookingId := none }, st2)
    | none =>
      ({ success := false, message := API_MESSAGES.SERVER_ERROR, bookingId := none }, st2)

end ServerActions

namespace LibBookingActions

/-- The result shape of src/lib/actions/booking.actions.ts. -/
structure LibResult where
  success : Bool
deriving DecidableEq

/-- createBooking from src/lib/actions/booking.actions.ts: inserts
through the same Booking model, passing eventId, slug and email.  The
slug field is not in the Booking schema (dropped by strict mode) and no
fullName is passed, so the document reaches validation with fullName
absent; status takes the schema default confirmed. -/
def createBooking (st : DB) (now : Int) (eventId : Nat) (email : String) :
    LibResult × DB :=
  match bookingSave st now
      { eventId := eventId, email := email, fullName := none, status := "confirmed" } with
  | .ok (st2, _) => ({ success := true }, st2)
  | .error _ => ({ success := false }, st)

end LibBookingActions

/-! ## Step lemmas about createBooking -/

lemma emailRegexOk_ne_empty {e : String} (he : emailRegexOk e = true) : e ≠ "" := by
  intro h0
  rw [h0] at he
  exact absurd he (by decide)

lemma bookingValidate_ok {i : Nat} {e f : String}
    (he : emailRegexOk (normEmail e) = true)
    (hf1 : normTrim f ≠ "") (hf2 : (normTrim f).length ≤ 100) :
    bookingValidate (bookingApplySetters
      { eventId := i, email := e, fullName := some f, status := "confirmed" }) = [] := by
  unfold bookingApplySetters bookingValidate
  simp [emailRegexOk_ne_empty he, he, hf1, hf2]

/-- A createBooking call on an existing event with free capacity, valid
fields, and no existing booking for the pair inserts a confirmed booking
and reports success. -/
lemma createBooking_succeeds
    (st : DB) (now : Int) (evId : Nat) (ev : EventDoc) (e f : String)
    (hev : findEventById st evId = some ev)
    (hcap : ∀ c, ev.capacity = some c → c ≠ 0 → confirmedCount st evId < c)
    (he : emailRegexOk (normEmail e) = true)
    (hf1 : normTrim f ≠ "") (hf2 : (normTrim f).length ≤ 100)
    (hdup : ∀ b ∈ st.bookings, ¬(b.eventId = evId ∧ b.email = normEmail e)) :
    ServerActions.createBooking st now evId e f
      = ({ success := true, message := API_MESSAGES.BOOKING_CREATED,
           bookingId := some st.nextId },
         { st with
            bookings := st.bookings ++
              [{ id := st.nextId, eventId := evId, email := normEmail e,
                 fullName := normTrim f, status := "confirmed", createdAt := now }],
            nextId := st.nextId + 1 }) := by
  have hval := bookingValidate_ok (i := evId) (e := e) (f := f) he hf1 hf2
  simp only [bookingApplySetters, Option.map_some'] at hval
  have hfind : st.bookings.find?
      (fun ex => ex.eventId == evId && ex.email == normEmail e) = none := by
    rw [List.find?_eq_none]
    intro x hx
    simp only [Bool.and_eq_true, beq_iff_eq]
    intro hc
    exact hdup x hx hc
  have hany : st.bookings.any
      (fun ex => ex.eventId == evId && ex.email == normEmail e) = false := by
    rw [List.any_eq_false]
    intro x hx
    simp only [Bool.and_eq_true, beq_iff_eq]
    intro hc
    exact hdup x hx hc
  have hc2 :
      (match ev.capacity with
       | some c => decide (c ≠ 0) && decide (confirmedCount st evId ≥ c)
       | none => false) = false := by
    cases hc : ev.capacity with
    | none => rfl
    | some c =>
      by_cases hc0 : c = 0
      · subst hc0
        simp
      · have := hcap c hc hc0
        simp [hc0]
        omega
  simp only [ServerActions.createBooking, hev, hc2, bookingSave, bookingApplySetters,
    Option.map_some', Option.getD_some, hval, hfind, hany, ne_eq, not_true_eq_false,
    Bool.false_eq_true, if_false, reduceIte]

/-- A createBooking call on an existing event whose confirmed-booking
count has reached a nonzero capacity is rejected with the full-capacity
message and leaves the store unchanged. -/
lemma createBooking_full
    (st : DB) (now : Int) (evId : Nat) (ev : EventDoc) (e f : String) (c : Nat)
    (hev : findEventById st evId = some ev)
    (hcap : ev.capacity = some c) (hc0 : c ≠ 0) (hge : c ≤ confirmedCount st evId) :
    ServerActions.createBooking st now evId e f
      = ({ success := false, message := API_MESSAGES.EVENT_FULL, bookingId := none }, st) := by
  have hc2 :
      (match ev.capacity with
       | some c => decide (c ≠ 0) && decide (confirmedCount st evId ≥ c)
       | none => false) = true := by
    rw [hcap]
    simp [hc0]
    omega
  simp only [ServerActions.createBooking, hev, hc2, reduceIte]

/-! ## Claim C7 -/

/-- C7: a createBooking whose eventId resolves to no stored Event fails
with the not-found message and performs no write: the returned store is
the unchanged input store. -/
theorem C7_booking_requires_event
    (st : DB) (now : Int) (eventId : Nat) (email fullName : String)
    (h : findEventById st eventId = none) :
    ServerActions.createBooking st now eventId email fullName
      = ({ success := false, message := API_MESSAGES.NOT_FOUND, bookingId := none }, st) := by
  simp only [ServerActions.createBooking, h]

/-- C7 witness: in a store with no events, booking event 5 reports the
not-found message and leaves the store unchanged. -/
theorem C7_witness :
    ServerActions.createBooking ⟨[], [], 0⟩ 0 5 "a@b.com" "Al"
      = ({ success := false, message := API_MESSAGES.NOT_FOUND, bookingId := none },
         (⟨[], [], 0⟩ : DB)) :=
  C7_booking_requires_event ⟨[], [], 0⟩ 0 5 "a@b.com" "Al" rfl

lemma confirmedCount_snoc (evts : List EventDoc) (bks : List BookingDoc) (nid : Nat)
    (d : BookingDoc) (evId : Nat) :
    confirmedCount ⟨evts, bks ++ [d], nid⟩ evId
      = confirmedCount ⟨evts, bks, nid⟩ evId
        + (if d.eventId = evId ∧ d.status = "confirmed" then 1 else 0) := by
  unfold confirmedCount
  rw [List.filter_append, List.length_append]
  congr 1
  rw [List.filter_singleton]
  by_cases h : d.eventId = evId ∧ d.status = "confirmed"
  · rw [if_pos h]
    simp [h.1, h.2]
  · rw [if_neg h]
    have : (d.eventId == evId && d.status == "confirmed") = false := by
      rw [Bool.and_eq_false_iff]
      by_cases h1 : d.eventId = evId
      · right
        rw [beq_eq_false_iff_ne]
        intro h2
        exact h ⟨h1, h2⟩
      · left
        rw [beq_eq_false_iff_ne]
        exact h1
    rw [this]
    rfl

/-! ## Claim C1 -/

/-- C1: on an event with capacity 2 and no existing bookings, three
sequential createBooking calls with distinct valid emails and valid
names succeed, succeed, and fail with the full-capacity message, after
which the confirmed-booking count for the event is 2. -/
theorem C1_capacity_two_three_bookings
    (st : DB) (now1 now2 now3 : Int) (evId : Nat) (ev : EventDoc)
    (e1 e2 e3 f1 f2 f3 : String)
    (hev : findEventById st evId = some ev)
    (hcap : ev.capacity = some 2)
    (hnob : ∀ b ∈ st.bookings, b.eventId ≠ evId)
    (he1 : emailRegexOk (normEmail e1) = true)
    (he2 : emailRegexOk (normEmail e2) = true)
    (he3 : emailRegexOk (normEmail e3) = true)
    (hd12 : normEmail e1 ≠ normEmail e2)
    (hd13 : normEmail e1 ≠ normEmail e3)
    (hd23 : normEmail e2 ≠ normEmail e3)
    (hf1 : normTrim f1 ≠ "") (hf1l : (normTrim f1).length ≤ 100)
    (hf2 : normTrim f2 ≠ "") (hf2l : (normTrim f2).length ≤ 100)
    (hf3 : normTrim f3 ≠ "") (hf3l : (normTrim f3).length ≤ 100) :
    (ServerActions.createBooking st now1 evId e1 f1).1.success = true ∧
    (ServerActions.createBooking st now1 evId e1 f1).1.message
      = API_MESSAGES.BOOKING_CREATED ∧
    (ServerActions.createBooking
      (ServerActions.createBooking st now1 evId e1 f1).2 now2 evId e2 f2).1.success = true ∧
    (ServerActions.createBooking
      (ServerActions.createBooking st now1 evId e1 f1).2 now2 evId e2 f2).1.message
      = API_MESSAGES.BOOKING_CREATED ∧
    (ServerActions.createBooking
      (ServerActions.createBooking
        (ServerActions.createBooking st now1 evId e1 f1).2 now2 evId e2 f2).2
      now3 evId e3 f3).1.success = false ∧
    (ServerActions.createBooking
      (ServerActions.createBooking
        (ServerActions.createBooking st now1 evId e1 f1).2 now2 evId e2 f2).2
      now3 evId e3 f3).1.message = API_MESSAGES.EVENT_FULL ∧
    confirmedCount
      (ServerActions.createBooking
        (ServerActions.createBooking
          (ServerActions.createBooking st now1 evId e1 f1).2 now2 evId e2 f2).2
        now3 evId e3 f3).2 evId = 2 := by
  have hcount0 : confirmedCount st evId = 0 := by
    unfold confirmedCount
    rw [List.length_eq_zero, List.filter_eq_nil_iff]
    intro b hb
    simp only [Bool.and_eq_true, beq_iff_eq]
    intro hc
    exact hnob b hb hc.1
  have h1 := createBooking_succeeds st now1 evId ev e1 f1 hev
    (by intro c hc hc0; rw [hcap] at hc; cases hc; rw [hcount0]; omega)
    he1 hf1 hf1l
    (by intro b hb hc; exact hnob b hb hc.1)
  rw [h1]
  have hev1 : findEventById
      { st with
        bookings := st.bookings ++
          [{ id := st.nextId, eventId := evId, email := normEmail e1,
             fullName := normTrim f1, status := "confirmed", createdAt := now1 }],
        nextId := st.nextId + 1 } evId = some ev := hev
  have hcount1 : confirmedCount
      { st with
        bookings := st.bookings ++
          [{ id := st.nextId, eventId := evId, email := normEmail e1,
             fullName := normTrim f1, status := "confirmed", createdAt := now1 }],
        nextId := st.nextId + 1 } evId = 1 := by
    rw [confirmedCount_snoc]
    have h0 : confirmedCount ⟨st.events, st.bookings, st.nextId + 1⟩ evId = 0 := hcount0
    rw [h0]
    simp
  have h2 := createBooking_succeeds _ now2 evId ev e2 f2 hev1
    (by intro c hc hc0; rw [hcap] at hc; cases hc; rw [hcount1]; omega)
    he2 hf2 hf2l
    (by
      intro b hb hc
      rcases List.mem_append.mp hb with hb | hb
      · exact hnob b hb hc.1
      · rcases List.mem_singleton.mp hb with rfl
        exact hd12 (by rw [← hc.2]))
  rw [h2]
  have hcount2 : confirmedCount
      { st with
        bookings := (st.bookings ++
          [{ id := st.nextId, eventId := evId, email := normEmail e1,
             fullName := normTrim f1, status := "confirmed", createdAt := now1 }]) ++
          [{ id := st.nextId + 1, eventId := evId, email := normEmail e2,
             fullName := normTrim f2, status := "confirmed", createdAt := now2 }],
        nextId := st.nextId + 1 + 1 } evId = 2 := by
    rw [confirmedCount_snoc]
    have h1c : confirmedCount ⟨st.events, st.bookings ++
        [{ id := st.nextId, eventId := evId, email := normEmail e1,
           fullName := normTrim f1, status := "confirmed", createdAt := now1 }],
        st.nextId + 1 + 1⟩ evId = 1 := hcount1
    rw [h1c]
    simp
  have hev2 : findEventById
      { st with
        bookings := (st.bookings ++
          [{ id := st.nextId, eventId := evId, email := normEmail e1,
             fullName := normTrim f1, status := "confirmed", createdAt := now1 }]) ++
          [{ id := st.nextId + 1, eventId := evId, email := normEmail e2,
             fullName := normTrim f2, status := "confirmed", createdAt := now2 }],
        nextId := st.nextId + 1 + 1 } evId = some ev := hev
  have h3 := createBooking_full _ now3 evId ev e3 f3 2 hev2 hcap (by omega)
    (le_of_eq hcount2.symm)
  exact ⟨rfl, rfl, rfl, rfl,
    congrArg (fun p => p.1.success) h3,
    congrArg (fun p => p.1.message) h3,
    (congrArg (fun p => confirmedCount p.2 evId) h3).trans hcount2⟩

/-- A concrete event with capacity 2 for witnesses. -/
def c1Event : EventDoc :=
  { id := 1, title := "Tech Meetup", slug := "tech-meetup", description := "d",
    location := "Pune", organizer := "org", tags := ["ai"], date := "2099-01-01",
    time := "10:00", mode := "online", capacity := some 2, createdAt := 0 }

/-- A concrete store holding only that event and no bookings. -/
def c1Store : DB := { events := [c1Event], bookings := [], nextId := 2 }

/-- C1 witness: at the concrete capacity-2 store the third sequential
booking reports the full-capacity message and the confirmed count is
2. -/
theorem C1_witness :
    (ServerActions.createBooking
      (ServerActions.createBooking
        (ServerActions.createBooking c1Store 0 1 "a@b.com" "Al").2 0 1 "b@b.com" "Bo").2
      0 1 "c@b.com" "Cy").1.message = API_MESSAGES.EVENT_FULL ∧
    confirmedCount
      (ServerActions.createBooking
        (ServerActions.createBooking
          (ServerActions.createBooking c1Store 0 1 "a@b.com" "Al").2 0 1 "b@b.com" "Bo").2
        0 1 "c@b.com" "Cy").2 1 = 2 := by
  have h := C1_capacity_two_three_bookings c1Store 0 0 0 1 c1Event
    "a@b.com" "b@b.com" "c@b.com" "Al" "Bo" "Cy" rfl rfl (by decide) (by decide)
    (by decide) (by decide) (by decide) (by decide) (by decide) (by decide) (by decide)
    (by decide) (by decide) (by decide) (by decide)
  exact ⟨h.2.2.2.2.2.1, h.2.2.2.2.2.2⟩

/-! ## Claim C2 -/

/-- An event with plenty of free capacity. -/
def c2Event : EventDoc :=
  { id := 1, title := "T", slug := "t", description := "d", location := "l",
    organizer := "o", tags := ["x"], date := "2099-01-01", time := "10:00",
    mode := "online", capacity := some 10, createdAt := 0 }

/-- A cancelled booking occupying the pair (eventId 1, a@b.com). -/
def c2Booking : BookingDoc :=
  { id := 0, eventId := 1, email := "a@b.com", fullName := "Ann",
    status := "cancelled", createdAt := 0 }

/-- A store with one event and one cancelled booking for the pair
(eventId 1, a@b.com). -/
def c2Store : DB := { events := [c2Event], bookings := [c2Booking], nextId := 5 }

/-- C2 evaluated at the failing input: a createBooking for a pair that
already exists (here as a cancelled booking) is rejected with no write,
as the claim says, but its outcome is the generic server-error message,
not the canonical duplicate-booking message: the pre-save hook raises a
plain error whose message contains no "duplicate" and carries no code
11000, so the catch of createBooking misclassifies it.  A create with
the same event and a different email succeeds. -/
theorem C2_duplicate_outcome_misclassified :
    (ServerActions.createBooking c2Store 1 1 "a@b.com" "Bob").1
        = { success := false, message := API_MESSAGES.SERVER_ERROR, bookingId := none } ∧
    (ServerActions.createBooking c2Store 1 1 "a@b.com" "Bob").2 = c2Store ∧
    API_MESSAGES.SERVER_ERROR ≠ API_MESSAGES.DUPLICATE_BOOKING ∧
    (ServerActions.createBooking c2Store 1 1 "b@b.com" "Bob").1.success = true := by
  refine ⟨by decide, by decide, by decide, by decide⟩

/-! ## Claim C4 -/

/-- bookingValidate always reports a missing full name. -/
lemma bookingValidate_none_fullName (b : BookingInput) (h : b.fullName = none) :
    ("Attendee full name is required") ∈ bookingValidate b := by
  unfold bookingValidate
  rw [h]
  refine List.mem_append.mpr (Or.inl (List.mem_append.mpr (Or.inr ?_)))
  exact List.mem_singleton.mpr rfl

/-- The createBooking of src/lib/actions/booking.actions.ts never
writes: the document it builds has no fullName, so schema validation
fails before any insert. -/
lemma libCreate_no_write (st : DB) (now : Int) (eventId : Nat) (email : String) :
    (LibBookingActions.createBooking st now eventId email).2 = st := by
  have hmem := bookingValidate_none_fullName
    (bookingApplySetters
      { eventId := eventId, email := email, fullName := none, status := "confirmed" }) rfl
  have hne : bookingValidate (bookingApplySetters
      { eventId := eventId, email := email, fullName := none, status := "confirmed" })
      ≠ [] := by
    intro h0
    rw [h0] at hmem
    exact List.not_mem_nil _ hmem
  unfold LibBookingActions.createBooking bookingSave
  rw [if_pos hne]

lemma length_filter_map_le {α : Type} (f : α → α) (p : α → Bool) (l : List α)
    (h : ∀ x ∈ l, p (f x) = true → p x = true) :
    (List.filter p (l.map f)).length ≤ (l.filter p).length := by
  induction l with
  | nil => simp
  | cons a t ih =>
    have ht : ∀ x ∈ t, p (f x) = true → p x = true :=
      fun x hx => h x (List.mem_cons_of_mem a hx)
    have iht := ih ht
    rw [List.map_cons]
    by_cases hf : p (f a) = true
    · rw [List.filter_cons_of_pos hf, List.filter_cons_of_pos (h a (List.mem_cons_self a t) hf)]
      simpa using iht
    · rw [List.filter_cons_of_neg (by simpa using hf)]
      by_cases hp : p a = true
      · rw [List.filter_cons_of_pos hp]
        simp only [List.length_cons]
        omega
      · rw [List.filter_cons_of_neg (by simpa using hp)]
        exact iht

/-- The booking-creation (and cancellation) operations exposed by the
code paths that touch the Booking collection. -/
inductive BookOp where
  | mainCreate (now : Int) (eventId : Nat) (email fullName : String)
  | libCreate (now : Int) (eventId : Nat) (email : String)
  | cancel (bookingId : Nat)
deriving DecidableEq

/-- The state transition of one operation (results discarded). -/
def applyBookOp (st : DB) : BookOp → DB
  | .mainCreate now eventId email fullName =>
    (ServerActions.createBooking st now eventId email fullName).2
  | .libCreate now eventId email =>
    (LibBookingActions.createBooking st now eventId email).2
  | .cancel bookingId => (ServerActions.cancelBooking st bookingId).2

/-- Schema well-formedness of stored events: capacities respect the
min-1 bound of the Event schema. -/
def capsPositive (evts : List EventDoc) : Bool :=
  evts.all (fun ev => match ev.capacity with
    | some c => decide (1 ≤ c)
    | none => true)

/-- Store-assigned ids are distinct. -/
def eventIdsNodup (evts : List EventDoc) : Bool :=
  decide ((evts.map (fun e => e.id)).Nodup)

/-- The capacity invariant: no event with a set capacity has more
confirmed bookings than its capacity. -/
def capacityInvariant (st : DB) : Bool :=
  st.events.all (fun ev => match ev.capacity with
    | some c => decide (confirmedCount st ev.id ≤ c)
    | none => true)

/-- Inversion of a successful mongoose booking save: the new store is
the old one with exactly the normalized confirmed booking appended. -/
lemma bookingSave_ok_shape (st : DB) (now : Int) (input : BookingInput)
    (pr : DB × BookingDoc) (h : bookingSave st now input = .ok pr) :
    pr = ({ st with
             bookings := st.bookings ++
               [{ id := st.nextId, eventId := (bookingApplySetters input).eventId,
                  email := (bookingApplySetters input).email,
                  fullName := ((bookingApplySetters input).fullName).getD "",
                  status := (bookingApplySetters input).status, createdAt := now }],
             nextId := st.nextId + 1 },
           { id := st.nextId, eventId := (bookingApplySetters input).eventId,
             email := (bookingApplySetters input).email,
             fullName := ((bookingApplySetters input).fullName).getD "",
             status := (bookingApplySetters input).status, createdAt := now }) := by
  unfold bookingSave at h
  by_cases hval : bookingValidate (bookingApplySetters input) = []
  · rw [if_neg (by simpa using hval)] at h
    cases hfe : findEventById st (bookingApplySetters input).eventId with
    | none =>
      rw [hfe] at h
      exact absurd h (by simp)
    | some ev =>
      rw [hfe] at h
      simp only [] at h
      cases hfind : st.bookings.find? (fun ex =>
          ex.eventId == (bookingApplySetters input).eventId &&
          ex.email == (bookingApplySetters input).email) with
      | some b =>
        rw [hfind] at h
        exact absurd h (by simp)
      | none =>
        rw [hfind] at h
        simp only [] at h
        by_cases hany : st.bookings.any (fun ex =>
            ex.eventId == (bookingApplySetters input).eventId &&
            ex.email == (bookingApplySetters input).email) = true
        · rw [hany] at h
          exact absurd h (by simp)
        · rw [Bool.not_eq_true] at hany
          rw [hany] at h
          simp only [Bool.false_eq_true, if_false] at h
          exact (Except.ok.inj h).symm
  · rw [if_pos (by simpa using hval)] at h
    exact absurd h (by simp)

/-- Either a createBooking call leaves the store unchanged, or the
event was found with free capacity and exactly one confirmed booking
for it was appended. -/
lemma createBooking_state_cases (st : DB) (now : Int) (evId : Nat) (e f : String) :
    (ServerActions.createBooking st now evId e f).2 = st ∨
    (∃ ev, findEventById st evId = some ev ∧
      (∀ c, ev.capacity = some c → c ≠ 0 → confirmedCount st evId < c) ∧
      (ServerActions.createBooking st now evId e f).2
        = { st with
            bookings := st.bookings ++
              [{ id := st.nextId, eventId := evId, email := normEmail e,
                 fullName := normTrim f, status := "confirmed", createdAt := now }],
            nextId := st.nextId + 1 }) := by
  cases hev : findEventById st evId with
  | none =>
    left
    simp only [ServerActions.createBooking, hev]
  | some ev =>
    by_cases hblocked :
        (match ev.capacity with
         | some c => decide (c ≠ 0) && decide (confirmedCount st evId ≥ c)
         | none => false) = true
    · left
      simp only [ServerActions.createBooking, hev, hblocked, reduceIte]
    · rw [Bool.not_eq_true] at hblocked
      have hfree : ∀ c, ev.capacity = some c → c ≠ 0 → confirmedCount st evId < c := by
        intro c hc hc0
        rw [hc] at hblocked
        simp only [Bool.and_eq_false_iff, decide_eq_false_iff_not] at hblocked
        rcases hblocked with h | h
        · exact absurd hc0 h
        · omega
      cases hsave : bookingSave st now
          { eventId := evId, email := e, fullName := some f, status := "confirmed" } with
      | error err =>
        left
        simp only [ServerActions.createBooking, hev, hblocked, Bool.false_eq_true, if_false,
          hsave]
        split
        · rfl
        · split
          · rfl
          · rfl
      | ok pr =>
        right
        refine ⟨ev, rfl, hfree, ?_⟩
        have hpr := bookingSave_ok_shape st now _ pr hsave
        simp only [bookingApplySetters, Option.map_some', Option.getD_some] at hpr
        simp only [ServerActions.createBooking, hev, hblocked, Bool.false_eq_true, if_false,
          hsave, hpr]

lemma confirmedCount_cancelMap_le (st : DB) (bid : Nat) (evId : Nat) :
    confirmedCount
      { st with bookings := st.bookings.map (fun x =>
          if x.id == bid then { x with status := "cancelled" } else x) } evId
      ≤ confirmedCount st evId := by
  unfold confirmedCount
  apply length_filter_map_le
  intro x hx hpx
  by_cases hid : (x.id == bid) = true
  · rw [if_pos hid] at hpx
    simp at hpx
  · rw [if_neg hid] at hpx
    exact hpx

lemma applyBookOp_events (st : DB) (op : BookOp) : (applyBookOp st op).events = st.events := by
  cases op with
  | mainCreate now evId e f =>
    rcases createBooking_state_cases st now evId e f with h | ⟨ev, _, _, h⟩
    · simp only [applyBookOp]
      rw [h]
    · simp only [applyBookOp]
      rw [h]
  | libCreate now evId e =>
    simp only [applyBookOp]
    rw [libCreate_no_write]
  | cancel bid =>
    simp only [applyBookOp]
    unfold ServerActions.cancelBooking
    split
    · rfl
    · split <;> rfl

lemma capacityInvariant_step (st : DB) (op : BookOp)
    (hpos : capsPositive st.events = true)
    (hnd : eventIdsNodup st.events = true)
    (hinv : capacityInvariant st = true) :
    capacityInvariant (applyBookOp st op) = true := by
  cases op with
  | libCreate now evId e =>
    simp only [applyBookOp]
    rw [libCreate_no_write]
    exact hinv
  | cancel bid =>
    simp only [applyBookOp]
    unfold ServerActions.cancelBooking
    have hmain : capacityInvariant
        { st with bookings := st.bookings.map (fun x =>
            if x.id == bid then { x with status := "cancelled" } else x) } = true := by
      rw [capacityInvariant, List.all_eq_true] at hinv ⊢
      intro ev hev
      have hev' : ev ∈ st.events := hev
      have hbase := hinv ev hev'
      cases hc : ev.capacity with
      | none => simp
      | some c =>
        simp only [hc, decide_eq_true_eq] at hbase ⊢
        exact le_trans (confirmedCount_cancelMap_le st bid ev.id) hbase
    split
    · exact hinv
    · split
      · exact hmain
      · exact hmain
  | mainCreate now evId e f =>
    simp only [applyBookOp]
    rcases createBooking_state_cases st now evId e f with h | ⟨ev, hev, hfree, h⟩
    · rw [h]
      exact hinv
    · rw [h]
      have hevmem : ev ∈ st.events := List.mem_of_find?_eq_some hev
      have hevid : ev.id = evId := by
        have := List.find?_some hev
        simpa using this
      rw [capacityInvariant, List.all_eq_true] at hinv ⊢
      intro ev' hev'
      have hv' : ev' ∈ st.events := hev'
      have hbase := hinv ev' hv'
      cases hc : ev'.capacity with
      | none => simp
      | some c =>
        simp only [hc, decide_eq_true_eq] at hbase ⊢
        rw [confirmedCount_snoc]
        have hcountbase :
            confirmedCount ⟨st.events, st.bookings, st.nextId + 1⟩ ev'.id
              = confirmedCount st ev'.id := rfl
        rw [hcountbase]
        by_cases hid : evId = ev'.id
        · have hee : ev' = ev := by
            have hinj := List.inj_on_of_nodup_map (by simpa [eventIdsNodup] using hnd)
            exact hinj hv' hevmem (by rw [hevid, hid])
          have hcfree : confirmedCount st evId < c := by
            apply hfree c
            · rw [hee] at hc
              exact hc
            · rw [capsPositive, List.all_eq_true] at hpos
              have := hpos ev hevmem
              rw [hee] at hc
              simp only [hc, decide_eq_true_eq] at this
              omega
          rw [if_pos ⟨hid, rfl⟩]
          rw [← hid]
          omega
        · rw [if_neg (by intro hcon; exact hid hcon.1)]
          simpa using hbase

/-- C4: over every exposed booking-creation path (the main createBooking
server action, the createBooking of src/lib/actions/booking.actions.ts,
and cancellations), any sequence of operations run sequentially from a
store whose events are schema-well-formed and that satisfies the
capacity invariant leaves the invariant intact: no event with a set
capacity ever has more confirmed bookings than its capacity. -/
theorem C4_capacity_invariant_all_paths
    (st : DB) (ops : List BookOp)
    (hpos : capsPositive st.events = true)
    (hnd : eventIdsNodup st.events = true)
    (hinv : capacityInvariant st = true) :
    capacityInvariant (ops.foldl applyBookOp st) = true := by
  induction ops generalizing st with
  | nil => exact hinv
  | cons op rest ih =>
    rw [List.foldl_cons]
    apply ih
    · rw [applyBookOp_events]
      exact hpos
    · rw [applyBookOp_events]
      exact hnd
    · exact capacityInvariant_step st op hpos hnd hinv

/-- C4 witness: a concrete mixed sequence of operations on the
capacity-2 store keeps the capacity invariant. -/
theorem C4_witness :
    capsPositive c1Store.events = true ∧
    eventIdsNodup c1Store.events = true ∧
    capacityInvariant c1Store = true ∧
    capacityInvariant
      (([BookOp.mainCreate 0 1 "a@b.com" "Al", BookOp.libCreate 0 1 "b@b.com",
         BookOp.mainCreate 0 1 "b@b.com" "Bo", BookOp.mainCreate 0 1 "c@b.com" "Cy",
         BookOp.cancel 2]).foldl applyBookOp c1Store) = true := by
  refine ⟨by decide, by decide, by decide, ?_⟩
  exact C4_capacity_invariant_all_paths c1Store _ (by decide) (by decide) (by decide)

/-! ## Dates (JavaScript Date over Int milliseconds) -/

def digitVal (c : Char) : Nat := c.toNat - 48

/-- The YYYY-MM-DD shape check of the date validator regex. -/
def parseDateParts (s : String) : Option (Nat × Nat × Nat) :=
  match s.toList with
  | [y1, y2, y3, y4, h1, m1, m2, h2, d1, d2] =>
    if digitChar y1 && digitChar y2 && digitChar y3 && digitChar y4 &&
       h1 = '-' && digitChar m1 && digitChar m2 && h2 = '-' &&
       digitChar d1 && digitChar d2 then
      some (digitVal y1 * 1000 + digitVal y2 * 100 + digitVal y3 * 10 + digitVal y4,
            digitVal m1 * 10 + digitVal m2,
            digitVal d1 * 10 + digitVal d2)
    else none
  | _ => none

def isLeap (y : Nat) : Bool := (y % 4 == 0 && y % 100 != 0) || y % 400 == 0

def daysInMonth (y m : Nat) : Nat :=
  if m = 2 then (if isLeap y then 29 else 28)
  else if m = 4 || m = 6 || m = 9 || m = 11 then 30
  else 31

/-- Days since 1970-01-01 of a proleptic-Gregorian civil date. -/
def daysFromCivil (y : Int) (m d : Nat) : Int :=
  let yAdj : Int := if m ≤ 2 then y - 1 else y
  let era : Int := Int.fdiv yAdj 400
  let yoe : Int := yAdj - era * 400
  let mp : Nat := (m + 9) % 12
  let doy : Int := (((153 * mp + 2) / 5 : Nat) : Int) + (d : Int) - 1
  let doe : Int := yoe * 365 + yoe / 4 - yoe / 100 + doy
  era * 146097 + doe - 719468

/-- new Date("YYYY-MM-DD"): a string in the date shape naming a real
calendar date parses to the day number of its UTC midnight; everything
else is an invalid date. -/
def parseDateDays (s : String) : Option Int :=
  match parseDateParts s with
  | some (y, m, d) =>
    if 1 ≤ m && m ≤ 12 && 1 ≤ d && d ≤ daysInMonth y m then
      some (daysFromCivil (y : Int) m d)
    else none
  | none => none

def msPerDay : Int := 86400000

/-- The clock environment: UTC now in milliseconds and the fixed UTC
offset of the server timezone in minutes east of UTC. -/
structure Env where
  nowMs : Int
  offsetMin : Int
deriving DecidableEq

/-- The server-local calendar day containing now, in days since the
epoch: the day new Date().setHours(0,0,0,0) truncates to. -/
def localTodayDays (env : Env) : Int :=
  Int.fdiv (env.nowMs + env.offsetMin * 60000) msPerDay

/-- new Date().setHours(0,0,0,0) as UTC milliseconds. -/
def localMidnightMs (env : Env) : Int :=
  localTodayDays env * msPerDay - env.offsetMin * 60000

/-! ## The Event save pipeline -/

/-- The time validator regex: one-or-two-digit hour 0-23. -/
def hourOk : List Char → Bool
  | [h] => digitChar h
  | [h1, h2] => ((h1 = '0' || h1 = '1') && digitChar h2) || (h1 = '2' && '0' ≤ h2 && h2 ≤ '3')
  | _ => false

def timeFormatOk (s : String) : Bool :=
  match splitOnChar ':' s.toList with
  | [hh, mm] =>
    hourOk hh &&
    (match mm with
     | [m1, m2] => '0' ≤ m1 && m1 ≤ '5' && digitChar m2
     | _ => false)
  | _ => false

/-- The fields handed to Event.create that this embedding keeps. -/
structure EventInput where
  title : String
  description : String
  location : String
  organizer : String
  tags : List String
  date : String
  time : String
  mode : String
  capacity : Option Nat
deriving DecidableEq

/-- Schema trim setters on the kept text fields (date and time carry no
trim option in the schema). -/
def eventApplySetters (e : EventInput) : EventInput :=
  { e with title := normTrim e.title, description := normTrim e.description,
           location := normTrim e.location, organizer := normTrim e.organizer }

/-- Schema validation of the Event model over the kept fields, with the
messages of every violated path in schema order. -/
def eventValidate (e : EventInput) : List String :=
  (if e.title = "" then [("Event title is required")]
   else if e.title.length ≤ 120 then [] else [("Title cannot exceed 120 characters")]) ++
  (if e.description = "" then [("Event description is required")]
   else if e.description.length ≤ 2000 then []
   else [("Description cannot exceed 2000 characters")]) ++
  (if e.location = "" then [("Event location is required")]
   else if e.location.length ≤ 200 then [] else [("Location cannot exceed 200 characters")]) ++
  (if e.date = "" then [("Event date is required")]
   else if (parseDateDays e.date).isSome then []
   else [("Date must be in YYYY-MM-DD format")]) ++
  (if e.time = "" then [("Event time is required")]
   else if timeFormatOk e.time then [] else [("Time must be in HH:MM format (24-hour)")]) ++
  (if e.mode = "" then [("Event mode is required")]
   else if e.mode ∈ (["online", "offline", "hybrid"] : List String) then []
   else [("Event mode must be online, offline, or hybrid")]) ++
  (if e.organizer = "" then [("Organizer name is required")]
   else if e.organizer.length ≤ 100 then []
   else [("Organizer name cannot exceed 100 characters")]) ++
  (if e.tags.isEmpty then [("At least one tag is required")] else []) ++
  (match e.capacity with
   | some c => if 1 ≤ c then [] else [("Capacity must be at least 1")]
   | none => [])

inductive EventSaveError where
  | validation (msgs : List String)
  | hookError (msg : String)
  | dupKey
deriving DecidableEq

/-- Event.create as the mongoose save pipeline in order: setters,
validation, the pre-save hook of event.model.ts (slug generation — at
creation the title always counts as modified — followed by the
past-date rejection, which compares the UTC-parsed date string against
server-local midnight), then the unique index on slug, then the
insert with a store-assigned id. -/
def eventSave (st : DB) (env : Env) (input : EventInput) :
    Except EventSaveError (DB × EventDoc) :=
  let e := eventApplySetters input
  if eventValidate e ≠ [] then .error (.validation (eventValidate e))
  else
    match parseDateDays e.date with
    | none => .error (.validation [("Date must be in YYYY-MM-DD format")])
    | some d =>
      if d * msPerDay < localMidnightMs env then
        .error (.hookError ("Event date cannot be in the past"))
      else if st.events.any (fun ex => ex.slug == EventModel.generateSlug e.title) then
        .error .dupKey
      else
        .ok ({ st with
                events := st.events ++
                  [{ id := st.nextId, title := e.title,
                     slug := EventModel.generateSlug e.title,
                     description := e.description, location := e.location,
                     organizer := e.organizer, tags := e.tags, date := e.date,
                     time := e.time, mode := e.mode, capacity := e.capacity,
                     createdAt := env.nowMs }],
                nextId := st.nextId + 1 },
             { id := st.nextId, title := e.title,
               slug := EventModel.generateSlug e.title,
               description := e.description, location := e.location,
               organizer := e.organizer, tags := e.tags, date := e.date,
               time := e.time, mode := e.mode, capacity := e.capacity,
               createdAt := env.nowMs })

/-- The database part of POST /api/events: code 11000 maps to the 409
duplicate-title response, ValidationError to 400, and a hook error is
rethrown into the outer catch as a 500. -/
def postCreateEvent (st : DB) (env : Env) (input : EventInput) :
    (Nat × String) × DB :=
  match eventSave st env input with
  | .ok (st2, _) => ((201, "Event created successfully"), st2)
  | .error .dupKey => ((409, "An event with this title already exists"), st)
  | .error (.validation _) => ((400, "Validation failed"), st)
  | .error (.hookError _) => ((500, "Event creation failed"), st)

/-- Slugs are pairwise distinct in the store. -/
def slugsNodup (evts : List EventDoc) : Bool :=
  decide ((evts.map (fun e => e.slug)).Nodup)

def isOkB {ε α : Type} : Except ε α → Bool
  | .ok _ => true
  | .error _ => false

/-- Inversion of a successful event save: no stored event had the
generated slug, and the new store is the old one with the created
document appended. -/
lemma eventSave_ok_shape (st : DB) (env : Env) (input : EventInput)
    (pr : DB × EventDoc) (h : eventSave st env input = .ok pr) :
    st.events.any (fun ex =>
      ex.slug == EventModel.generateSlug (eventApplySetters input).title) = false ∧
    pr.1 = { st with events := st.events ++ [pr.2], nextId := st.nextId + 1 } ∧
    pr.2.slug = EventModel.generateSlug (eventApplySetters input).title := by
  unfold eventSave at h
  by_cases hval : eventValidate (eventApplySetters input) = []
  · rw [if_neg (by simpa using hval)] at h
    cases hdd : parseDateDays (eventApplySetters input).date with
    | none =>
      rw [hdd] at h
      exact absurd h (by simp)
    | some d =>
      rw [hdd] at h
      simp only [] at h
      by_cases hpast : d * msPerDay < localMidnightMs env
      · rw [if_pos hpast] at h
        exact absurd h (by simp)
      · rw [if_neg hpast] at h
        by_cases hany : st.events.any (fun ex =>
            ex.slug == EventModel.generateSlug (eventApplySetters input).title) = true
        · rw [hany] at h
          exact absurd h (by simp)
        · rw [Bool.not_eq_true] at hany
          rw [hany] at h
          simp only [Bool.false_eq_true, if_false] at h
          obtain rfl := (Except.ok.inj h).symm
          exact ⟨hany, rfl, rfl⟩
  · rw [if_pos (by simpa using hval)] at h
    exact absurd h (by simp)

/-! ## Claim C3 -/

/-- C3: creating a second Event whose title normalizes to the slug of a
stored Event fails through the unique index as the 409 duplicate-title
response with no write, and every creation through the POST route
preserves the uniqueness of slugs in the store. -/
theorem C3_slug_uniqueness
    (st : DB) (env : Env) (input : EventInput) (dd : Int) (ev0 : EventDoc)
    (hval : eventValidate (eventApplySetters input) = [])
    (hdd : parseDateDays input.date = some dd)
    (hnotpast : ¬(dd * msPerDay < localMidnightMs env))
    (hmem : ev0 ∈ st.events)
    (hslug : ev0.slug = EventModel.generateSlug (normTrim input.title)) :
    postCreateEvent st env input
      = ((409, "An event with this title already exists"), st) ∧
    (∀ (st' : DB) (env' : Env) (input' : EventInput), slugsNodup st'.events = true →
      slugsNodup ((postCreateEvent st' env' input').2).events = true) := by
  constructor
  · have hdd' : parseDateDays (eventApplySetters input).date = some dd := hdd
    have hslug' : ev0.slug = EventModel.generateSlug (eventApplySetters input).title := hslug
    have hany : st.events.any (fun ex =>
        ex.slug == EventModel.generateSlug (eventApplySetters input).title) = true := by
      rw [List.any_eq_true]
      exact ⟨ev0, hmem, by rw [beq_iff_eq]; exact hslug'⟩
    have hsave : eventSave st env input = .error .dupKey := by
      unfold eventSave
      rw [if_neg (by simpa using hval)]
      rw [hdd']
      simp only []
      rw [if_neg hnotpast, hany]
      simp
    simp only [postCreateEvent, hsave]
  · intro st' env' input' hnd
    cases hsave : eventSave st' env' input' with
    | error err =>
      cases err <;> simpa [postCreateEvent, hsave] using hnd
    | ok pr =>
      obtain ⟨hany, hst, hslugd⟩ := eventSave_ok_shape st' env' input' pr hsave
      simp only [postCreateEvent, hsave]
      rw [hst]
      rw [slugsNodup, decide_eq_true_eq] at hnd ⊢
      rw [List.map_append]
      rw [List.nodup_append]
      refine ⟨hnd, by simp, ?_⟩
      intro x hx hx2
      rcases List.mem_map.mp hx with ⟨exv, hexv, rfl⟩
      simp only [List.map_cons, List.map_nil, List.mem_singleton] at hx2
      rw [List.any_eq_false] at hany
      have hne := hany exv hexv
      apply hne
      rw [beq_iff_eq, hx2, hslugd]

/-- C3 witness: with an event stored under the slug tech-conf, a POST
for a title normalizing to the same slug reports 409 and changes
nothing; the uniqueness-preservation conjunct also holds at a
concrete store. -/
theorem C3_witness :
    postCreateEvent
      ⟨[{ id := 1, title := "Tech Conf", slug := "tech-conf", description := "d",
          location := "l", organizer := "o", tags := ["ai"], date := "2099-01-01",
          time := "10:00", mode := "online", capacity := none, createdAt := 0 }], [], 2⟩
      ⟨20738 * 86400000, 0⟩
      { title := "  Tech   Conf  ", description := "d2", location := "l2",
        organizer := "o2", tags := ["dev"], date := "2099-01-01", time := "11:00",
        mode := "offline", capacity := none }
      = ((409, "An event with this title already exists"),
         ⟨[{ id := 1, title := "Tech Conf", slug := "tech-conf", description := "d",
             location := "l", organizer := "o", tags := ["ai"], date := "2099-01-01",
             time := "10:00", mode := "online", capacity := none, createdAt := 0 }], [], 2⟩) := by
  have h := C3_slug_uniqueness
    ⟨[{ id := 1, title := "Tech Conf", slug := "tech-conf", description := "d",
        location := "l", organizer := "o", tags := ["ai"], date := "2099-01-01",
        time := "10:00", mode := "online", capacity := none, createdAt := 0 }], [], 2⟩
    ⟨20738 * 86400000, 0⟩
    { title := "  Tech   Conf  ", description := "d2", location := "l2",
      organizer := "o2", tags := ["dev"], date := "2099-01-01", time := "11:00",
      mode := "offline", capacity := none }
    (daysFromCivil 2099 1 1) _ (by decide) (by decide) (by decide)
    (List.mem_singleton.mpr rfl) (by decide)
  exact h.1

/-! ## Claim C6 -/

/-- A concrete valid event creation dated 2026-10-12. -/
def c6Input : EventInput :=
  { title := "Tech Conf", description := "d", location := "l", organizer := "o",
    tags := ["ai"], date := "2026-10-12", time := "10:00", mode := "online",
    capacity := none }

/-- A server clock in UTC-7 at 2026-10-12 19:00 UTC, that is 12:00
local time on the local calendar day 2026-10-12. -/
def c6Env : Env := { nowMs := 20738 * 86400000 + 19 * 3600000, offsetMin := -420 }

/-- C6 counterexample: on a UTC-7 server at local noon of 2026-10-12,
creating an event dated 2026-10-12 — the current server-local calendar
day — is rejected with the past-date message, because the date string
parses as UTC midnight, which precedes server-local midnight.  The
claim says creation with the current day succeeds. -/
theorem C6_counterexample :
    localTodayDays c6Env = daysFromCivil 2026 10 12 ∧
    parseDateDays c6Input.date = some (daysFromCivil 2026 10 12) ∧
    eventSave ⟨[], [], 0⟩ c6Env c6Input
      = .error (.hookError ("Event date cannot be in the past")) :=
  ⟨by decide, by decide, rfl⟩

/-- C6 amended: creating an event dated yesterday (server-local) is
always rejected with the past-date message; creating one dated the
current server-local calendar day is rejected exactly when the server
UTC offset is negative, and proceeds to a successful insert when the
offset is non-negative and the slug is free.  The embedding models
creation, where the date field always counts as modified, so the rule
runs on every create. -/
theorem C6_date_rule
    (st : DB) (env : Env) (input : EventInput) (dd : Int)
    (hval : eventValidate (eventApplySetters input) = [])
    (hdd : parseDateDays input.date = some dd)
    (hofflo : -1440 < env.offsetMin) (hoffhi : env.offsetMin < 1440) :
    (dd = localTodayDays env - 1 →
      eventSave st env input = .error (.hookError ("Event date cannot be in the past"))) ∧
    (dd = localTodayDays env →
      (eventSave st env input = .error (.hookError ("Event date cannot be in the past"))
        ↔ env.offsetMin < 0)) ∧
    (dd = localTodayDays env → 0 ≤ env.offsetMin →
      st.events.any (fun ex =>
        ex.slug == EventModel.generateSlug (eventApplySetters input).title) = false →
      isOkB (eventSave st env input) = true) := by
  have hdd' : parseDateDays (eventApplySetters input).date = some dd := hdd
  refine ⟨?_, ?_, ?_⟩
  · intro hyest
    have hpast : dd * msPerDay < localMidnightMs env := by
      rw [hyest, localMidnightMs]
      unfold msPerDay
      omega
    unfold eventSave
    rw [if_neg (by simpa using hval)]
    rw [hdd']
    simp only []
    rw [if_pos hpast]
  · intro htoday
    constructor
    · intro hrej
      by_contra hoff
      rw [not_lt] at hoff
      have hnotpast : ¬(dd * msPerDay < localMidnightMs env) := by
        rw [htoday, localMidnightMs]
        unfold msPerDay
        omega
      unfold eventSave at hrej
      rw [if_neg (by simpa using hval)] at hrej
      rw [hdd'] at hrej
      simp only [] at hrej
      rw [if_neg hnotpast] at hrej
      by_cases hany : st.events.any (fun ex =>
          ex.slug == EventModel.generateSlug (eventApplySetters input).title) = true
      · rw [hany] at hrej
        exact absurd hrej (by simp)
      · rw [Bool.not_eq_true] at hany
        rw [hany] at hrej
        simp at hrej
    · intro hoff
      have hpast : dd * msPerDay < localMidnightMs env := by
        rw [htoday, localMidnightMs]
        unfold msPerDay
        omega
      unfold eventSave
      rw [if_neg (by simpa using hval)]
      rw [hdd']
      simp only []
      rw [if_pos hpast]
  · intro htoday hoff hany
    have hnotpast : ¬(dd * msPerDay < localMidnightMs env) := by
      rw [htoday, localMidnightMs]
      unfold msPerDay
      omega
    unfold eventSave
    rw [if_neg (by simpa using hval)]
    rw [hdd']
    simp only []
    rw [if_neg hnotpast, hany]
    simp [isOkB]

/-- C6 witness: at a UTC+1 server clock on the same calendar day,
yesterday is rejected and the current day saves successfully. -/
theorem C6_witness :
    (eventSave ⟨[], [], 0⟩ ⟨20738 * 86400000 + 19 * 3600000, 60⟩
        { c6Input with date := "2026-10-11" }
      = .error (.hookError ("Event date cannot be in the past"))) ∧
    isOkB (eventSave ⟨[], [], 0⟩ ⟨20738 * 86400000 + 19 * 3600000, 60⟩ c6Input) = true := by
  have h1 := C6_date_rule ⟨[], [], 0⟩ ⟨20738 * 86400000 + 19 * 3600000, 60⟩
    { c6Input with date := "2026-10-11" } (daysFromCivil 2026 10 11)
    (by decide) (by decide) (by decide) (by decide)
  have h2 := C6_date_rule ⟨[], [], 0⟩ ⟨20738 * 86400000 + 19 * 3600000, 60⟩
    c6Input (daysFromCivil 2026 10 12)
    (by decide) (by decide) (by decide) (by decide)
  exact ⟨h1.1 (by decide), h2.2.2 (by decide) (by decide) (by decide)⟩

/-! ## Query layer: string order, case-insensitive match, sorting -/

lemma char_toNat_inj {a b : Char} (h : a.toNat = b.toNat) : a = b := by
  have h2 : Char.ofNat a.toNat = Char.ofNat b.toNat := by rw [h]
  rwa [Char.ofNat_toNat, Char.ofNat_toNat] at h2

/-- Three-way lexicographic comparison on character lists: the order
mongo uses on the ASCII date strings. -/
def lexCmp : List Char → List Char → Ordering
  | [], [] => .eq
  | [], _ :: _ => .lt
  | _ :: _, [] => .gt
  | a :: t, b :: u =>
    if a = b then lexCmp t u
    else if a.toNat < b.toNat then .lt
    else .gt

lemma lexCmp_eq_iff : ∀ a b, lexCmp a b = Ordering.eq ↔ a = b := by
  intro a
  induction a with
  | nil =>
    intro b
    cases b <;> simp [lexCmp]
  | cons x t ih =>
    intro b
    cases b with
    | nil => simp [lexCmp]
    | cons y u =>
      by_cases hxy : x = y
      · subst hxy
        simp [lexCmp, ih u]
      · rw [lexCmp.eq_def]
        simp only [if_neg hxy]
        by_cases hlt : x.toNat < y.toNat
        · simp [hlt, hxy]
        · simp [hlt, hxy]

lemma lexCmp_lt_asymm : ∀ a b, lexCmp a b = Ordering.lt → lexCmp b a = Ordering.gt := by
  intro a
  induction a with
  | nil =>
    intro b h
    cases b with
    | nil => simp [lexCmp] at h
    | cons y u => simp [lexCmp]
  | cons x t ih =>
    intro b h
    cases b with
    | nil => simp [lexCmp] at h
    | cons y u =>
      by_cases hxy : x = y
      · subst hxy
        rw [lexCmp.eq_def] at h ⊢
        simp only [if_pos rfl] at h ⊢
        exact ih u h
      · rw [lexCmp.eq_def] at h
        simp only [if_neg hxy] at h
        by_cases hlt : x.toNat < y.toNat
        · rw [lexCmp.eq_def]
          have hyx : ¬(y = x) := fun hc => hxy hc.symm
          simp only [if_neg hyx]
          have hnl : ¬(y.toNat < x.toNat) := by omega
          rw [if_neg hnl]
        · rw [if_neg hlt] at h
          exact absurd h (by simp)
          
lemma lexCmp_not_ltgt : ∀ a b, lexCmp a b = Ordering.lt → lexCmp a b = Ordering.gt → False := by
  intro a b h1 h2
  rw [h1] at h2
  exact absurd h2 (by simp)

lemma lexCmp_lt_trans :
    ∀ a b c, lexCmp a b = Ordering.lt → lexCmp b c = Ordering.lt →
      lexCmp a c = Ordering.lt := by
  intro a
  induction a with
  | nil =>
    intro b c h1 h2
    cases c with
    | nil =>
      cases b with
      | nil => exact h1
      | cons y u => simp [lexCmp] at h2
    | cons z v => simp [lexCmp]
  | cons x t ih =>
    intro b c h1 h2
    cases b with
    | nil => simp [lexCmp] at h1
    | cons y u =>
      cases c with
      | nil => simp [lexCmp] at h2
      | cons z v =>
        rw [lexCmp.eq_def] at h1 h2 ⊢
        by_cases hxy : x = y
        · subst hxy
          simp only [if_pos rfl] at h1
          by_cases hyz : x = z
          · subst hyz
            simp only [if_pos rfl] at h2 ⊢
            exact ih u v h1 h2
          · simp only [if_neg hyz] at h2 ⊢
            exact h2
        · simp only [if_neg hxy] at h1
          by_cases hlt : x.toNat < y.toNat
          · by_cases hyz : y = z
            · subst hyz
              simp only [if_neg hxy, if_pos hlt]
            · simp only [if_neg hyz] at h2
              by_cases hlt2 : y.toNat < z.toNat
              · have hxz : ¬(x = z) := by
                  intro hc
                  subst hc
                  omega
                simp only [if_neg hxz]
                rw [if_pos (by omega)]
              · rw [if_neg hlt2] at h2
                exact absurd h2 (by simp)
          · rw [if_neg hlt] at h1
            exact absurd h1 (by simp)

/-- The mongo gte comparison on strings. -/
def strLe (a b : String) : Bool :=
  match lexCmp a.toList b.toList with
  | .gt => false
  | _ => true

/-- RegExp(pattern, i).test(text) for pattern strings free of regex
metacharacters: a case-insensitive substring test. -/
def ciContains (pattern text : String) : Bool :=
  containsSub (text.toList.map Char.toLower) (pattern.toList.map Char.toLower)

def insertSorted {α : Type} (r : α → α → Bool) (x : α) : List α → List α
  | [] => [x]
  | y :: ys => if r x y then x :: y :: ys else y :: insertSorted r x ys

/-- Insertion sort standing for the store's sort stage. -/
def sortByRel {α : Type} (r : α → α → Bool) : List α → List α
  | [] => []
  | x :: xs => insertSorted r x (sortByRel r xs)

lemma perm_insertSorted {α : Type} (r : α → α → Bool) (x : α) :
    ∀ l, (insertSorted r x l).Perm (x :: l) := by
  intro l
  induction l with
  | nil => rfl
  | cons y ys ih =>
    rw [insertSorted]
    by_cases hxy : r x y = true
    · rw [if_pos hxy]
    · rw [if_neg hxy]
      exact (ih.cons y).trans (List.Perm.swap x y ys)

lemma perm_sortByRel {α : Type} (r : α → α → Bool) :
    ∀ l, (sortByRel r l).Perm l := by
  intro l
  induction l with
  | nil => rfl
  | cons x xs ih =>
    rw [sortByRel]
    exact (perm_insertSorted r x (sortByRel r xs)).trans (ih.cons x)

lemma pairwise_insertSorted {α : Type} (r : α → α → Bool)
    (htot : ∀ a b, r a b = false → r b a = true)
    (htrans : ∀ a b c, r a b = true → r b c = true → r a c = true)
    (x : α) (l : List α) (h : List.Pairwise (fun a b => r a b = true) l) :
    List.Pairwise (fun a b => r a b = true) (insertSorted r x l) := by
  induction l with
  | nil => simp [insertSorted]
  | cons y ys ih =>
    rw [insertSorted]
    obtain ⟨hy, hys⟩ := List.pairwise_cons.mp h
    by_cases hxy : r x y = true
    · rw [if_pos hxy]
      rw [List.pairwise_cons]
      refine ⟨?_, h⟩
      intro z hz
      rcases List.mem_cons.mp hz with rfl | hz
      · exact hxy
      · exact htrans x y z hxy (hy z hz)
    · rw [if_neg hxy]
      rw [List.pairwise_cons]
      refine ⟨?_, ih hys⟩
      intro z hz
      have hmem : z = x ∨ z ∈ ys := by
        have := (perm_insertSorted r x ys).mem_iff.mp hz
        simpa using this
      rcases hmem with hzx | hz2
      · rw [hzx]
        exact htot x y (by simpa using hxy)
      · exact hy z hz2

lemma pairwise_sortByRel {α : Type} (r : α → α → Bool)
    (htot : ∀ a b, r a b = false → r b a = true)
    (htrans : ∀ a b c, r a b = true → r b c = true → r a c = true) :
    ∀ l, List.Pairwise (fun a b => r a b = true) (sortByRel r l) := by
  intro l
  induction l with
  | nil => simp [sortByRel]
  | cons x xs ih =>
    rw [sortByRel]
    exact pairwise_insertSorted r htot htrans x (sortByRel r xs) ih

lemma lexCmp_swap : ∀ a b, lexCmp b a = (lexCmp a b).swap := by
  intro a
  induction a with
  | nil =>
    intro b
    cases b <;> rfl
  | cons x t ih =>
    intro b
    cases b with
    | nil => rfl
    | cons y u =>
      by_cases hxy : x = y
      · subst hxy
        rw [lexCmp.eq_def, lexCmp.eq_def (x :: t)]
        simp only [if_pos rfl]
        exact ih u
      · have hyx : ¬(y = x) := fun hc => hxy hc.symm
        have hne : x.toNat ≠ y.toNat := fun hc => hxy (char_toNat_inj hc)
        rw [lexCmp.eq_def, lexCmp.eq_def (x :: t)]
        simp only [if_neg hxy, if_neg hyx]
        by_cases hlt : x.toNat < y.toNat
        · rw [if_pos hlt, if_neg (by omega)]
          rfl
        · rw [if_neg hlt, if_pos (by omega)]
          rfl

/-- Sort key date ascending with createdAt descending as tiebreak. -/
def dateCreatedRel (a b : EventDoc) : Bool :=
  match lexCmp a.date.toList b.date.toList with
  | .lt => true
  | .gt => false
  | .eq => decide (b.createdAt ≤ a.createdAt)

lemma dateCreatedRel_total :
    ∀ a b, dateCreatedRel a b = false → dateCreatedRel b a = true := by
  intro a b h
  unfold dateCreatedRel at h ⊢
  rw [lexCmp_swap]
  cases hc : lexCmp a.date.toList b.date.toList with
  | lt => rw [hc] at h; exact absurd h (by simp)
  | gt => rfl
  | eq =>
    rw [hc] at h
    simp only [decide_eq_false_iff_not, not_le] at h
    simp only [Ordering.swap]
    rw [decide_eq_true_eq]
    omega

lemma dateCreatedRel_trans :
    ∀ a b c, dateCreatedRel a b = true → dateCreatedRel b c = true →
      dateCreatedRel a c = true := by
  intro a b c h1 h2
  unfold dateCreatedRel at h1 h2 ⊢
  cases hab : lexCmp a.date.toList b.date.toList with
  | gt => rw [hab] at h1; exact absurd h1 (by simp)
  | lt =>
    cases hbc : lexCmp b.date.toList c.date.toList with
    | gt => rw [hbc] at h2; exact absurd h2 (by simp)
    | lt => rw [lexCmp_lt_trans _ _ _ hab hbc]
    | eq =>
      have hbceq := (lexCmp_eq_iff _ _).mp hbc
      rw [← hbceq, hab]
  | eq =>
    have habeq := (lexCmp_eq_iff _ _).mp hab
    rw [hab] at h1
    rw [decide_eq_true_eq] at h1
    cases hbc : lexCmp b.date.toList c.date.toList with
    | gt => rw [hbc] at h2; exact absurd h2 (by simp)
    | lt => rw [habeq, hbc]
    | eq =>
      rw [hbc] at h2
      rw [decide_eq_true_eq] at h2
      rw [habeq, hbc, decide_eq_true_eq]
      omega

/-! ## Event listing and search queries -/

/-- The free-text OR filter of the server actions: case-insensitive
match on title, description, any tag, organizer and location. -/
def matchesSearch5 (s : String) (ev : EventDoc) : Bool :=
  ciContains s ev.title || ciContains s ev.description ||
  ev.tags.any (fun t => ciContains s t) || ciContains s ev.organizer ||
  ciContains s ev.location

/-- The query object built by getUpcomingEvents: date floor plus the
optional search, mode and tag filters (each skipped when absent or
blank). -/
def upcomingMatches (todayStr : String) (search mode tag : Option String)
    (ev : EventDoc) : Bool :=
  strLe todayStr ev.date &&
  (match search with
   | some s => if normTrim s ≠ "" then matchesSearch5 s ev else true
   | none => true) &&
  (match mode with
   | some m => if normTrim m ≠ "" then ev.mode == m else true
   | none => true) &&
  (match tag with
   | some t => if normTrim t ≠ "" then ev.tags.any (fun x => ciContains t x) else true
   | none => true)

/-- The sort comparators of getUpcomingEvents.  The popular sort reads
an attendees field no document carries: mongo ranks every document
equal on a missing field, so the date-ascending tiebreak decides. -/
def upcomingSortRel (sortKey : Option String) : EventDoc → EventDoc → Bool :=
  match sortKey with
  | some ("date-desc") => fun a b => strLe b.date a.date
  | some ("created") => fun a b => decide (b.createdAt ≤ a.createdAt)
  | some ("popular") => fun a b => strLe a.date b.date
  | _ => fun a b => strLe a.date b.date

structure ListResult where
  events : List EventDoc
  totalPages : Nat
  currentPage : Nat
deriving DecidableEq

/-- Math.ceil(total / limit) on naturals, for limit at least 1. -/
def ceilDiv (total limit : Nat) : Nat := (total + limit - 1) / limit

/-- getUpcomingEvents from src/unnamed/part_001.  todayStr stands for
new Date().toISOString().split("T")[0], the UTC calendar day of the
call. -/
def getUpcomingEvents (st : DB) (todayStr : String) (page limit : Nat)
    (search mode tag sortKey : Option String) : ListResult :=
  let matching := st.events.filter (upcomingMatches todayStr search mode tag)
  { events :=
      ((sortByRel (upcomingSortRel sortKey) matching).drop ((page - 1) * limit)).take limit,
    totalPages := ceilDiv matching.length limit,
    currentPage := page }

/-- searchEvents from src/unnamed/part_001: the five-field filter with
date-ascending, createdAt-descending sort and the same pagination. -/
def searchEvents (st : DB) (page limit : Nat) (q : String) : ListResult :=
  let matching := st.events.filter (matchesSearch5 q)
  { events := ((sortByRel dateCreatedRel matching).drop ((page - 1) * limit)).take limit,
    totalPages := ceilDiv matching.length limit,
    currentPage := page }

/-- getSimilarEventsBySlug from src/unnamed/part_001: loads the
reference event by slug, then other upcoming events sharing a tag,
sorted by date then recency, up to the limit; an unknown slug yields
the empty sequence. -/
def getSimilarEventsBySlug (st : DB) (todayStr : String) (slug : String) (limit : Nat) :
    List EventDoc :=
  match st.events.find? (fun e => e.slug == slug) with
  | none => []
  | some ref =>
    (sortByRel dateCreatedRel (st.events.filter (fun e =>
      !(e.id == ref.id) && e.tags.any (fun t => ref.tags.contains t) &&
      strLe todayStr e.date))).take limit

structure BookingListResult where
  bookings : List BookingDoc
  total : Nat
  currentPage : Nat
  totalPages : Nat
deriving DecidableEq

/-- getEventBookings from src/unnamed/part_001: confirmed bookings of
one event, newest first, with the same pagination contract. -/
def getEventBookings (st : DB) (eventId : Nat) (page limit : Nat) : BookingListResult :=
  let matching := st.bookings.filter (fun b => b.eventId == eventId && b.status == "confirmed")
  { bookings := ((sortByRel (fun a b => decide (b.createdAt ≤ a.createdAt)) matching).drop
      ((page - 1) * limit)).take limit,
    total := matching.length,
    currentPage := page,
    totalPages := ceilDiv matching.length limit }

/-- The filter of GET /api/events: upcoming date floor, optional exact
mode (only when a valid enum value), optional exact tag element match,
and a search filter over only title, description and tags. -/
def routeMatches (todayStr : String) (mode tag search : Option String)
    (ev : EventDoc) : Bool :=
  strLe todayStr ev.date &&
  (match mode with
   | some m =>
     if m ∈ (["online", "offline", "hybrid"] : List String) then ev.mode == m else true
   | none => true) &&
  (match tag with
   | some t => if t ≠ "" then ev.tags.contains t else true
   | none => true) &&
  (match search with
   | some s =>
     if s ≠ "" then
       ciContains s ev.title || ciContains s ev.description ||
       ev.tags.any (fun x => ciContains s x)
     else true
   | none => true)

def routeSortRel (sortKey : String) : EventDoc → EventDoc → Bool :=
  match sortKey with
  | "date-desc" => fun a b => strLe b.date a.date
  | "created" => fun a b => decide (b.createdAt ≤ a.createdAt)
  | _ => fun a b => strLe a.date b.date

structure RoutePagination where
  page : Int
  limit : Int
  total : Nat
  totalPages : Nat
  hasNext : Bool
  hasPrev : Bool
deriving DecidableEq

structure RouteListResult where
  events : List EventDoc
  pagination : RoutePagination
deriving DecidableEq

/-- GET /api/events: clamps page to at least 1 and limit into [1, 50],
filters, sorts, and paginates with skip = (page - 1) * limit. -/
def routeGET (st : DB) (todayStr : String) (pageRaw limitRaw : Int)
    (mode tag search : Option String) (sortKey : String) : RouteListResult :=
  let page : Int := max 1 pageRaw
  let limit : Int := min 50 (max 1 limitRaw)
  let filtered := st.events.filter (routeMatches todayStr mode tag search)
  let total := filtered.length
  let totalPages := ceilDiv total limit.toNat
  { events := ((sortByRel (routeSortRel sortKey) filtered).drop
      ((page.toNat - 1) * limit.toNat)).take limit.toNat,
    pagination := { page := page, limit := limit, total := total, totalPages := totalPages,
                    hasNext := decide (page < (totalPages : Int)),
                    hasPrev := decide (1 < page) } }

/-! ## Claim C8 -/

/-- An upcoming event whose search text occurs only in the organizer
field. -/
def c8Event : EventDoc :=
  { id := 1, title := "Hackathon", slug := "hackathon", description := "fun",
    location := "Pune", organizer := "DevCorp Inc", tags := ["code"],
    date := "2099-01-01", time := "10:00", mode := "online", capacity := none,
    createdAt := 0 }

def c8Store : DB := { events := [c8Event], bookings := [], nextId := 2 }

/-- C8 counterexample: the claim says every search-filtered event
listing matches across the five fields; the GET route matches only
title, description and tags, so an upcoming event whose search text
occurs only in its organizer is returned by the server actions but not
by the API route. -/
theorem C8_counterexample :
    matchesSearch5 ("devcorp") c8Event = true ∧
    (getUpcomingEvents c8Store "2026-01-01" 1 12 (some ("devcorp")) none none none).events
      = [c8Event] ∧
    (searchEvents c8Store 1 12 ("devcorp")).events = [c8Event] ∧
    routeMatches "2026-01-01" none none (some ("devcorp")) c8Event = false ∧
    (routeGET c8Store "2026-01-01" 1 12 none none (some ("devcorp")) "date").events = [] := by
  refine ⟨by decide, by decide, by decide, by decide, by decide⟩

/-- C8 amended: for a non-blank search string, the server actions
getUpcomingEvents and searchEvents include every event matching any of
the five fields (title, description, tags, organizer, location; for
getUpcomingEvents among upcoming events), while the GET /api/events
route includes an upcoming event exactly when one of only title,
description or tags matches. -/
theorem C8_search_fields
    (st : DB) (todayStr s : String) (ev : EventDoc)
    (hmem : ev ∈ st.events)
    (hup : strLe todayStr ev.date = true)
    (hs : normTrim s ≠ "")
    (hse : s ≠ "")
    (hmatch : matchesSearch5 s ev = true) :
    ev ∈ st.events.filter (upcomingMatches todayStr (some s) none none) ∧
    ev ∈ st.events.filter (matchesSearch5 s) ∧
    (ev ∈ st.events.filter (routeMatches todayStr none none (some s)) ↔
      (ciContains s ev.title || ciContains s ev.description ||
       ev.tags.any (fun x => ciContains s x)) = true) := by
  refine ⟨?_, ?_, ?_⟩
  · rw [List.mem_filter]
    refine ⟨hmem, ?_⟩
    unfold upcomingMatches
    simp [hup, hs, hmatch]
  · rw [List.mem_filter]
    exact ⟨hmem, hmatch⟩
  · rw [List.mem_filter]
    unfold routeMatches
    constructor
    · rintro ⟨_, h⟩
      simp only [hup, hse, Bool.and_eq_true, if_neg, ne_eq, not_false_eq_true, if_pos,
        true_and] at h
      simpa [hse] using h
    · intro h3
      refine ⟨hmem, ?_⟩
      simp [hup, hse, h3]

/-- C8 witness: at the concrete store the organizer-only match is in
both action filters and, by the route equivalence, outside the route
filter. -/
theorem C8_witness :
    c8Event ∈ c8Store.events.filter (upcomingMatches "2026-01-01" (some ("devcorp")) none none) ∧
    c8Event ∈ c8Store.events.filter (matchesSearch5 ("devcorp")) ∧
    c8Event ∉ c8Store.events.filter (routeMatches "2026-01-01" none none (some ("devcorp"))) := by
  have h := C8_search_fields c8Store "2026-01-01" "devcorp" c8Event (by decide) (by decide)
    (by decide) (by decide) (by decide)
  refine ⟨h.1, h.2.1, ?_⟩
  intro hc
  exact absurd (h.2.2.mp hc) (by decide)

/-! ## Claim C9 -/

/-- C9: getSimilarEventsBySlug returns the empty sequence on an unknown
slug; on a found reference event it returns at most limit events, each
with a different id, each upcoming, each sharing at least one tag with
the reference, sorted by date ascending with createdAt descending as
tiebreak. -/
theorem C9_similar_events (st : DB) (todayStr slug : String) (limit : Nat) :
    (st.events.find? (fun e => e.slug == slug) = none →
      getSimilarEventsBySlug st todayStr slug limit = []) ∧
    (∀ ref, st.events.find? (fun e => e.slug == slug) = some ref →
      (getSimilarEventsBySlug st todayStr slug limit).length ≤ limit ∧
      List.Pairwise (fun a b => dateCreatedRel a b = true)
        (getSimilarEventsBySlug st todayStr slug limit) ∧
      (∀ e ∈ getSimilarEventsBySlug st todayStr slug limit,
        e.id ≠ ref.id ∧ strLe todayStr e.date = true ∧ ∃ t ∈ e.tags, t ∈ ref.tags)) := by
  constructor
  · intro h
    unfold getSimilarEventsBySlug
    rw [h]
  · intro ref h
    unfold getSimilarEventsBySlug
    rw [h]
    refine ⟨List.length_take_le _ _, ?_, ?_⟩
    · exact List.Pairwise.sublist (List.take_sublist _ _)
        (pairwise_sortByRel dateCreatedRel dateCreatedRel_total dateCreatedRel_trans _)
    · intro e he
      have he2 := List.take_subset _ _ he
      have he3 := (perm_sortByRel dateCreatedRel _).mem_iff.mp he2
      obtain ⟨_, hp⟩ := List.mem_filter.mp he3
      simp only [Bool.and_eq_true, Bool.not_eq_eq_eq_not, Bool.not_true, beq_eq_false_iff_ne,
        List.any_eq_true] at hp
      obtain ⟨⟨hid, ⟨t, ht, htc⟩⟩, hdate⟩ := hp
      refine ⟨hid, hdate, t, ht, ?_⟩
      simpa using htc

/-- Event A with tags X and Y. -/
def simA : EventDoc :=
  { id := 1, title := "A", slug := "a-event", description := "d", location := "l",
    organizer := "o", tags := ["X", "Y"], date := "2099-01-02", time := "10:00",
    mode := "online", capacity := none, createdAt := 0 }

/-- Event B with tag Y. -/
def simB : EventDoc :=
  { id := 2, title := "B", slug := "b-event", description := "d", location := "l",
    organizer := "o", tags := ["Y"], date := "2099-01-03", time := "10:00",
    mode := "online", capacity := none, createdAt := 1 }

/-- Event C with tag Z. -/
def simC : EventDoc :=
  { id := 3, title := "C", slug := "c-event", description := "d", location := "l",
    organizer := "o", tags := ["Z"], date := "2099-01-04", time := "10:00",
    mode := "online", capacity := none, createdAt := 2 }

def simStore : DB := { events := [simA, simB, simC], bookings := [], nextId := 4 }

/-- C9 witness: with A, B, C all upcoming, the similar events of the
slug of A are exactly B — not A itself and not C — and the structural
conclusions follow from the theorem at the found reference. -/
theorem C9_witness :
    getSimilarEventsBySlug simStore "2026-01-01" "a-event" 5 = [simB] ∧
    getSimilarEventsBySlug simStore "2026-01-01" "missing" 5 = [] ∧
    (∀ e ∈ getSimilarEventsBySlug simStore "2026-01-01" "a-event" 5,
      e.id ≠ simA.id ∧ strLe "2026-01-01" e.date = true ∧ ∃ t ∈ e.tags, t ∈ simA.tags) := by
  have h := C9_similar_events simStore "2026-01-01" "a-event" 5
  have hm := C9_similar_events simStore "2026-01-01" "missing" 5
  exact ⟨by decide, hm.1 rfl, (h.2 simA rfl).2.2⟩

/-! ## Claim C10 -/

lemma ceilDiv_mul_ge (n l : Nat) (hl : 1 ≤ l) : n ≤ ceilDiv n l * l := by
  unfold ceilDiv
  have h2 : (n + l - 1) / l < (n + l - 1) / l + 1 := Nat.lt_succ_self _
  have h3 := (Nat.div_lt_iff_lt_mul (by omega : 0 < l)).mp h2
  have h4 : ((n + l - 1) / l + 1) * l = (n + l - 1) / l * l + l := by ring
  omega

/-- A page beyond the last one selects past the end of the list. -/
lemma paginate_beyond {α : Type} (l : List α) (page limit : Nat)
    (hl : 1 ≤ limit) (hp : ceilDiv l.length limit < page) :
    (l.drop ((page - 1) * limit)).take limit = [] := by
  have h2 := ceilDiv_mul_ge l.length limit hl
  have h3 : ceilDiv l.length limit ≤ page - 1 := by omega
  have h1 : l.length ≤ (page - 1) * limit :=
    le_trans h2 (Nat.mul_le_mul_right _ h3)
  rw [List.drop_eq_nil_of_le h1]
  exact List.take_nil

/-- C10: in every modelled listing and search call the reported
totalPages is the ceiling of matching total over page size, the page
is selected by skipping (page - 1) * pageSize sorted documents, at
most pageSize items are returned, and a page beyond totalPages yields
the empty sequence, not an error. -/
theorem C10_pagination
    (st : DB) (todayStr q : String) (page limit eventId : Nat)
    (search mode tag sortKey : Option String) (pageRaw limitRaw : Int) (rSort : String)
    (mode2 tag2 search2 : Option String)
    (hl : 1 ≤ limit) :
    ((getUpcomingEvents st todayStr page limit search mode tag sortKey).totalPages
       = ceilDiv (st.events.filter (upcomingMatches todayStr search mode tag)).length limit ∧
     (getUpcomingEvents st todayStr page limit search mode tag sortKey).events
       = ((sortByRel (upcomingSortRel sortKey)
            (st.events.filter (upcomingMatches todayStr search mode tag))).drop
           ((page - 1) * limit)).take limit ∧
     (getUpcomingEvents st todayStr page limit search mode tag sortKey).events.length ≤ limit ∧
     ((getUpcomingEvents st todayStr page limit search mode tag sortKey).totalPages < page →
       (getUpcomingEvents st todayStr page limit search mode tag sortKey).events = [])) ∧
    ((searchEvents st page limit q).totalPages
       = ceilDiv (st.events.filter (matchesSearch5 q)).length limit ∧
     (searchEvents st page limit q).events.length ≤ limit ∧
     ((searchEvents st page limit q).totalPages < page →
       (searchEvents st page limit q).events = [])) ∧
    ((getEventBookings st eventId page limit).totalPages
       = ceilDiv (getEventBookings st eventId page limit).total limit ∧
     (getEventBookings st eventId page limit).bookings.length ≤ limit ∧
     ((getEventBookings st eventId page limit).totalPages < page →
       (getEventBookings st eventId page limit).bookings = [])) ∧
    ((routeGET st todayStr pageRaw limitRaw mode2 tag2 search2 rSort).pagination.totalPages
       = ceilDiv (st.events.filter (routeMatches todayStr mode2 tag2 search2)).length
           (min 50 (max 1 limitRaw)).toNat ∧
     (routeGET st todayStr pageRaw limitRaw mode2 tag2 search2 rSort).events.length
       ≤ (min 50 (max 1 limitRaw)).toNat ∧
     ((routeGET st todayStr pageRaw limitRaw mode2 tag2 search2 rSort).pagination.totalPages
         < (max 1 pageRaw).toNat →
       (routeGET st todayStr pageRaw limitRaw mode2 tag2 search2 rSort).events = [])) := by
  have hbeyond : ∀ (l : List EventDoc) (r : EventDoc → EventDoc → Bool) (pg lim : Nat),
      1 ≤ lim → ceilDiv l.length lim < pg →
      ((sortByRel r l).drop ((pg - 1) * lim)).take lim = [] := by
    intro l r pg lim hlim hpg
    apply paginate_beyond _ _ _ hlim
    rw [(perm_sortByRel r l).length_eq]
    exact hpg
  refine ⟨⟨rfl, rfl, List.length_take_le _ _, ?_⟩,
          ⟨rfl, List.length_take_le _ _, ?_⟩,
          ⟨rfl, List.length_take_le _ _, ?_⟩,
          ⟨rfl, List.length_take_le _ _, ?_⟩⟩
  · intro hp
    exact hbeyond _ _ page limit hl hp
  · intro hp
    exact hbeyond _ _ page limit hl hp
  · intro hp
    have hb : ∀ (l : List BookingDoc) (r : BookingDoc → BookingDoc → Bool),
        ceilDiv l.length limit < page →
        ((sortByRel r l).drop ((page - 1) * limit)).take limit = [] := by
      intro l r hpg
      apply paginate_beyond _ _ _ hl
      rw [(perm_sortByRel r l).length_eq]
      exact hpg
    exact hb _ _ hp
  · intro hp
    have hlim : 1 ≤ (min 50 (max 1 limitRaw)).toNat := by omega
    exact hbeyond _ _ (max 1 pageRaw).toNat (min 50 (max 1 limitRaw)).toNat hlim hp

/-- C10 witness: at the concrete three-event store, page 7 of a
one-per-page listing is empty and a search page holds at most two
items. -/
theorem C10_witness :
    (getUpcomingEvents simStore "2026-01-01" 7 1 none none none none).events = [] ∧
    (searchEvents simStore 1 2 ("o")).events.length ≤ 2 := by
  have h := C10_pagination simStore "2026-01-01" "o" 7 1 0 none none none none 1 12 "date"
    none none none (by omega)
  have h2 := C10_pagination simStore "2026-01-01" "o" 1 2 0 none none none none 1 12 "date"
    none none none (by omega)
  exact ⟨h.1.2.2.2 (by decide), h2.2.1.2.1⟩

end Gather
